import Mathlib

/-!
# Verification of the go-sdk wallet cryptographic core

A shallow embedding of the wallet key-derivation core, proto-wallet
operations, LRU derivation cache and the create-action wire codec of the
go-sdk repository, together with theorems settling the specification
claims.

Conventions of the embedding:
* Go byte slices are `List Nat` with values below 256.
* Go `string` values used for derivation labels are Lean `String`s;
  Go `len` on strings is the UTF-8 byte size.
* Fallible Go functions return `Except WErr α`; a Go run-time panic
  (nil-pointer dereference) is embedded as the distinguished error value
  `WErr.nilPanic`.  The `fmt.Errorf` message wrapping that the Go code
  applies around propagated errors carries no information used by any
  claim and is elided: an error propagates as its underlying value.
* The secp256k1 elliptic-curve layer lives in the `primitives/ec`
  package of the repository, which is not part of the provided sources;
  it is modelled from the spec.  The curve group generated by `G` has
  prime order `nOrder` and is cyclic, hence isomorphic to `ZMod nOrder`;
  a point is represented by its discrete logarithm (a `Nat` reduced
  `mod nOrder`, `0` standing for the point at infinity and `1` for `G`),
  scalar multiplication becomes multiplication and point addition
  becomes addition `mod nOrder`.  The hash primitives (SHA-256,
  HMAC-SHA-512) and the AES-GCM cipher are declared external in the spec
  (§2 component A) and are modelled by fixed executable stand-in
  functions with the interfaces the spec gives them.
-/

namespace GoSdk

/-- Go byte slices: lists of byte values. -/
abbrev Bytes := List Nat

/-! ## Little-endian byte encodings -/

/-- `k`-byte little-endian encoding of `n` (mod `256^k`), as written by the
wire writer. -/
def leBytes : Nat → Nat → Bytes
  | 0, _ => []
  | k + 1, n => n % 256 :: leBytes k (n / 256)

/-- Value of a little-endian byte list. -/
def leVal : Bytes → Nat
  | [] => 0
  | b :: bs => b + 256 * leVal bs

theorem leBytes_length (k n : Nat) : (leBytes k n).length = k := by
  induction k generalizing n with
  | zero => rfl
  | succ k ih => simp [leBytes, ih]

theorem leVal_leBytes (k n : Nat) (h : n < 256 ^ k) : leVal (leBytes k n) = n := by
  induction k generalizing n with
  | zero => simp [Nat.pow_zero] at h; simp [leBytes, leVal, h]
  | succ k ih =>
      have hdiv : n / 256 < 256 ^ k := by
        rw [Nat.div_lt_iff_lt_mul (by norm_num : 0 < 256)]
        calc n < 256 ^ (k + 1) := h
          _ = 256 ^ k * 256 := by ring
      simp [leBytes, leVal, ih _ hdiv, Nat.mod_add_div']
      omega

/-- Minimal big-endian byte representation of a natural number, the
semantics of Go's `math/big.Int.Bytes`: no leading zero bytes, the empty
slice for `0`.  Defined with fuel (64 bytes suffice for every value the
model produces) to keep the kernel able to evaluate it. -/
def natBytesBEAux : Nat → Nat → Bytes
  | 0, _ => []
  | fuel + 1, n => if n = 0 then [] else natBytesBEAux fuel (n / 256) ++ [n % 256]

/-- Go `big.Int.Bytes()` for values below `256^64`. -/
def natBytesBE (n : Nat) : Bytes := natBytesBEAux 64 n

/-! ## The wallet data model -/

/-- Wallet protocol descriptor: security level (a Go `int`) and protocol
name, as in the `wallet` package. -/
structure WalletProtocol where
  SecurityLevel : Int
  Protocol : String
deriving DecidableEq, Repr

/-- Counterparty tagged union.  `uninit` is the zero value
(`CounterpartyUninitialized` in Go); `other` carries the counterparty's
public key (model: its discrete logarithm). -/
inductive WalletCounterparty where
  | uninit
  | anyone
  | self
  | other (pub : Nat)
deriving DecidableEq, Repr

/-- Error values of the embedded wallet core.  Each constructor stands for
one distinct Go error (or run-time panic); `fmt.Errorf` wrapper text is
elided. -/
inductive WErr where
  /-- "protocol security level must be 0, 1, or 2" -/
  | invalidSecurityLevel
  /-- "key IDs must be 800 characters or less" -/
  | keyIDTooLong
  /-- "key IDs must be 1 character or more" -/
  | keyIDTooShort
  /-- "specific linkage revelation protocol names must be 430 characters or less" -/
  | protocolSLRTooLong
  /-- "protocol names must be 400 characters or less" -/
  | protocolTooLong
  /-- "protocol names must be 5 characters or more" -/
  | protocolTooShort
  /-- "protocol names cannot contain multiple consecutive spaces" -/
  | doubleSpace
  /-- "protocol names can only contain letters, numbers and spaces" -/
  | invalidCharacters
  /-- "no need to end your protocol name with protocol" -/
  | redundantSuffix
  /-- "cannot derive symmetric key for self" -/
  | selfSymmetric
  /-- Degenerate child derivation (spec §4.2 `DegenerateDerivation`). -/
  | degenerate
  /-- "failed to derive shared secret" (nil ECDH result). -/
  | sharedSecretNil
  /-- Go run-time panic from dereferencing a nil pointer. -/
  | nilPanic
  /-- "args.data or args.hashToDirectlySign must be valid" -/
  | noPayload
  /-- Pre-hash of a length other than 32 bytes (spec §7 `HashLengthInvalid`). -/
  | hashLengthInvalid
  /-- "signature is not valid" -/
  | sigInvalid
  /-- AES-GCM authentication failure on decrypt. -/
  | authFailed
deriving DecidableEq, Repr

/-! ## Invoice number computation (`KeyDeriver.computeInvoiceNumber`) -/

/-- Go `unicode.IsSpace` restricted to Latin-1, the range relevant to the
byte-level validation that follows: space, `\t`, `\n`, `\v`, `\f`, `\r`,
NEL (U+0085) and NBSP (U+00A0). -/
def goIsSpace (c : Char) : Bool :=
  c = ' ' || c = '\t' || c.toNat = 10 || c.toNat = 11 || c.toNat = 12 ||
  c.toNat = 13 || c.toNat = 0x85 || c.toNat = 0xA0

/-- Go `strings.TrimSpace`. -/
def goTrimSpace (s : String) : String :=
  ⟨((s.data.dropWhile goIsSpace).reverse.dropWhile goIsSpace).reverse⟩

/-- ASCII lower-casing of one character (`strings.ToLower`; non-ASCII
letters are left unchanged and are rejected by the character-set check
downstream either way). -/
def asciiLower (c : Char) : Char :=
  if 'A' ≤ c ∧ c ≤ 'Z' then Char.ofNat (c.toNat + 32) else c

/-- Go `strings.ToLower`. -/
def goToLower (s : String) : String := ⟨s.data.map asciiLower⟩

/-- Whether a character list contains two consecutive spaces
(`strings.Contains(name, "  ")`). -/
def containsDoubleSpace : List Char → Bool
  | a :: b :: rest => (a = ' ' && b = ' ') || containsDoubleSpace (b :: rest)
  | _ => false

/-- One character of the class `[a-z0-9 ]`. -/
def protocolChar (c : Char) : Bool :=
  ('a' ≤ c && c ≤ 'z') || ('0' ≤ c && c ≤ '9') || c = ' '

/-- The regular expression `^[a-z0-9 ]+$`. -/
def protocolNameOk (s : String) : Bool :=
  !s.data.isEmpty && s.data.all protocolChar

/-- The checks `computeInvoiceNumber` runs after the length-400/430 gate,
followed by the `fmt.Sprintf("%d-%s-%s", …)` assembling the result. -/
def invoiceTail (level : Int) (name keyID : String) : Except WErr String :=
  if name.utf8ByteSize < 5 then .error .protocolTooShort
  else if containsDoubleSpace name.data then .error .doubleSpace
  else if !protocolNameOk name then .error .invalidCharacters
  else if (" protocol".data).isSuffixOf name.data then .error .redundantSuffix
  else .ok (toString level ++ "-" ++ name ++ "-" ++ keyID)

/-- `KeyDeriver.computeInvoiceNumber`, statement by statement from the
source. -/
def computeInvoiceNumber (protocol : WalletProtocol) (keyID : String) :
    Except WErr String :=
  if protocol.SecurityLevel < 0 ∨ protocol.SecurityLevel > 2 then
    .error .invalidSecurityLevel
  else if keyID.utf8ByteSize > 800 then .error .keyIDTooLong
  else if keyID.utf8ByteSize < 1 then .error .keyIDTooShort
  else
    let protocolName := goToLower (goTrimSpace protocol.Protocol)
    if protocolName.utf8ByteSize > 400 then
      if ("specific linkage revelation ".data).isPrefixOf protocolName.data then
        if protocolName.utf8ByteSize > 430 then .error .protocolSLRTooLong
        else invoiceTail protocol.SecurityLevel protocolName keyID
      else .error .protocolTooLong
    else invoiceTail protocol.SecurityLevel protocolName keyID

instance {ε α : Type} [DecidableEq ε] [DecidableEq α] :
    DecidableEq (Except ε α) := fun x y =>
  match x, y with
  | .ok a, .ok b =>
      if h : a = b then isTrue (by rw [h])
      else isFalse (fun hh => by cases hh; exact h rfl)
  | .error a, .error b =>
      if h : a = b then isTrue (by rw [h])
      else isFalse (fun hh => by cases hh; exact h rfl)
  | .ok _, .error _ => isFalse (fun hh => by cases hh)
  | .error _, .ok _ => isFalse (fun hh => by cases hh)

/-! ## The elliptic-curve layer, modelled from the spec

The `primitives/ec` package is not in the provided sources.  The model
below follows the spec's §4.2 derivation algorithm over the cyclic-group
representation described in the header. -/

/-- Order of the secp256k1 group (the curve has prime order, cofactor 1). -/
def nOrder : Nat :=
  0xFFFFFFFFFFFFFFFFFFFFFFFFFFFFFFFEBAAEDCE6AF48A03BBFD25E8CD0364141

/-- Modelled from the spec: `PrivateKey.PubKey()` — the public point of a
scalar, i.e. the scalar reduced `mod nOrder` in the cyclic-group model. -/
def pubOf (d : Nat) : Nat := d % nOrder

/-- Modelled from the spec: one step of the stand-in mixing function used
for the external hash primitives (§2 component A). -/
def mixStep (h b : Nat) : Nat :=
  (h * 6364136223846793005 + b * 1442695040888963407 + 2862933555777941757)
    % (2 ^ 256 - 189)

/-- Modelled from the spec: HMAC-SHA-512 of the invoice-number bytes keyed
by the shared-point x-coordinate, interpreted big-endian and reduced
`mod n` (§3 "Derived private key").  The external hash is a fixed
executable stand-in with this interface. -/
def hmac512ModN (key : Nat) (msg : String) : Nat :=
  (msg.data.foldl (fun h c => mixStep h c.toNat) (mixStep key 77)) % nOrder

/-- Modelled from the spec: the child scalar `t` of §4.2 — the shared
point `rootPriv · counterpartyPub`, its x-coordinate used as HMAC key over
the invoice number.  In the cyclic-group model the shared point is the
product of the scalars. -/
def childScalar (priv pub : Nat) (inv : String) : Nat :=
  hmac512ModN (priv * pub % nOrder) inv

/-- Modelled from the spec: `ec.PrivateKey.DeriveChild(counterpartyPub,
invoice)` — `childPriv = rootPriv + t (mod n)`, reporting
`DegenerateDerivation` when `t ≡ 0` or the result is `0` (§4.2
tie-breaks).  A nil counterparty key is dereferenced inside and panics. -/
def privDeriveChild (priv : Nat) (pub : Option Nat) (inv : String) :
    Except WErr Nat :=
  match pub with
  | none => .error .nilPanic
  | some q =>
    let t := childScalar priv q inv
    if t = 0 then .error .degenerate
    else if (priv + t) % nOrder = 0 then .error .degenerate
    else .ok ((priv + t) % nOrder)

/-- Modelled from the spec: `ec.PublicKey.DeriveChild(rootPriv, invoice)`
— `childPub = counterpartyPub + t·G`, with the same degenerate-result
reporting; a nil receiver panics. -/
def pubDeriveChild (pub : Option Nat) (priv : Nat) (inv : String) :
    Except WErr Nat :=
  match pub with
  | none => .error .nilPanic
  | some q =>
    let t := childScalar priv q inv
    if t = 0 then .error .degenerate
    else if (q + t) % nOrder = 0 then .error .degenerate
    else .ok ((q + t) % nOrder)

/-- Modelled from the spec: `ec.PrivateKey.DeriveSharedSecret` — the ECDH
point `priv · pub`, failing when the result is the point at infinity. -/
def deriveSharedSecret (priv pub : Nat) : Except WErr Nat :=
  if priv * pub % nOrder = 0 then .error .sharedSecretNil
  else .ok (priv * pub % nOrder)

/-! ## KeyDeriver -/

/-- `KeyDeriver` with its root private key and cached public key. -/
structure KeyDeriver where
  privateKey : Nat
  publicKey : Nat
deriving DecidableEq, Repr

/-- A `KeyDeriver` built from a non-nil root key, as `NewKeyDeriver` does
when the pointer is valid. -/
def mkKeyDeriver (d : Nat) : KeyDeriver := ⟨d, pubOf d⟩

/-- `NewKeyDeriver`: stores the root key and computes
`privateKey.PubKey()`.  With a nil root key the `PubKey()` call
dereferences nil and the Go runtime panics. -/
def NewKeyDeriver : Option Nat → Except WErr KeyDeriver
  | none => .error .nilPanic
  | some d => .ok (mkKeyDeriver d)

/-- `KeyDeriver.normalizeCounterparty`: `Self → rootPub`,
`Other(P) → P`, `Anyone → pub of the scalar-1 key`; the default branch
(uninitialised) returns nil. -/
def normalizeCounterparty (kd : KeyDeriver) :
    WalletCounterparty → Option Nat
  | .self => some kd.publicKey
  | .other p => some p
  | .anyone => some (pubOf 1)
  | .uninit => none

/-- `KeyDeriver.DerivePublicKey`. -/
def DerivePublicKey (kd : KeyDeriver) (protocol : WalletProtocol)
    (keyID : String) (counterparty : WalletCounterparty) (forSelf : Bool) :
    Except WErr Nat :=
  let counterpartyKey := normalizeCounterparty kd counterparty
  match computeInvoiceNumber protocol keyID with
  | .error e => .error e
  | .ok invoiceNumber =>
    if forSelf then
      (privDeriveChild kd.privateKey counterpartyKey invoiceNumber).map pubOf
    else
      pubDeriveChild counterpartyKey kd.privateKey invoiceNumber

/-- `KeyDeriver.DerivePrivateKey`. -/
def DerivePrivateKey (kd : KeyDeriver) (protocol : WalletProtocol)
    (keyID : String) (counterparty : WalletCounterparty) :
    Except WErr Nat :=
  let counterpartyKey := normalizeCounterparty kd counterparty
  match computeInvoiceNumber protocol keyID with
  | .error e => .error e
  | .ok invoiceNumber =>
    privDeriveChild kd.privateKey counterpartyKey invoiceNumber

/-- `KeyDeriver.DeriveSymmetricKey`: rejects `Self`, rewrites `Anyone` to
`Other` of the scalar-1 public key, derives both keys, takes the ECDH
shared secret and returns `sharedSecret.X.Bytes()` — the minimal
big-endian bytes of the x-coordinate (Go `big.Int.Bytes` semantics). -/
def DeriveSymmetricKey (kd : KeyDeriver) (protocol : WalletProtocol)
    (keyID : String) (counterparty : WalletCounterparty) :
    Except WErr Bytes :=
  match counterparty with
  | .self => .error .selfSymmetric
  | cp =>
    let cp' := match cp with
      | .anyone => WalletCounterparty.other (pubOf 1)
      | c => c
    match DerivePublicKey kd protocol keyID cp' false with
    | .error e => .error e
    | .ok derivedPublicKey =>
      match DerivePrivateKey kd protocol keyID cp' with
      | .error e => .error e
      | .ok derivedPrivateKey =>
        match deriveSharedSecret derivedPrivateKey derivedPublicKey with
        | .error e => .error e
        | .ok sharedSecret => .ok (natBytesBE sharedSecret)

/-! ## External cipher / hash / signature primitives, modelled from the spec -/

/-- Modelled from the spec: SHA-256 (§2 component A, external); a fixed
executable stand-in producing 32 bytes. -/
def sha256M (d : Bytes) : Bytes := leBytes 32 (d.foldl mixStep 5381)

/-- Modelled from the spec: ideal ECDSA signature — records the signer's
public key and the signed digest; verification compares both (§2
component A treats ECDSA as an external primitive). -/
structure SigModel where
  signer : Nat
  digest : Bytes
deriving DecidableEq, Repr

/-- Modelled from the spec: `ec.PrivateKey.Sign` over a pre-computed
digest; the digest length MUST be 32 bytes (§4.5), other lengths report
`HashLengthInvalid` (§7). -/
def signModel (priv : Nat) (digest : Bytes) : Except WErr SigModel :=
  if digest.length ≠ 32 then .error .hashLengthInvalid
  else .ok ⟨pubOf priv, digest⟩

/-- Modelled from the spec: `ec.Signature.Verify` — true exactly for the
recorded 32-byte digest under the recorded public key. -/
def verifyModel (sig : SigModel) (digest : Bytes) (pub : Nat) : Bool :=
  sig.digest.length = 32 && sig.signer = pub && sig.digest = digest

/-- Modelled from the spec §4.4: AES-256-GCM seal with layout
`nonce ‖ ciphertext ‖ tag`; the random 32-byte nonce and the cipher
internals are external primitives, represented by a stand-in keystream
and tag (the seal is deterministic in the model). -/
def sealModel (key m : Bytes) : Bytes :=
  leBytes 32 (key.foldl mixStep 97) ++ m.map (fun b => b ^^^ 0x5A) ++
    sha256M (key ++ m)

/-- Modelled from the spec §4.4: AES-256-GCM open — parses the inverse
layout and fails with an authentication error when the tag does not
verify. -/
def openModel (key ct : Bytes) : Except WErr Bytes :=
  if ct.length < 64 then .error .authFailed
  else
    let m := ((ct.drop 32).take (ct.length - 64)).map (fun b => b ^^^ 0x5A)
    if ct.drop (ct.length - 32) = sha256M (key ++ m) then .ok m
    else .error .authFailed

/-! ## ProtoWallet -/

/-- The three `ProtoWalletArgsType` constants. -/
inductive ProtoWalletArgsType where
  | privateKey
  | keyDeriver
  | anyone
deriving DecidableEq, Repr

/-- `ProtoWalletArgs` (the `KeyDeriver` field is unused by the
constructor, which rebuilds a deriver from the `PrivateKey` field in
every case, as the source does). -/
structure ProtoWalletArgs where
  type : ProtoWalletArgsType
  privateKeyArg : Option Nat
deriving DecidableEq, Repr

/-- `ProtoWallet` after successful construction. -/
structure ProtoWallet where
  keyDeriver : KeyDeriver
deriving DecidableEq, Repr

/-- `NewProtoWallet`: in the `anyone` case the source calls
`NewKeyDeriver(nil)`. -/
def NewProtoWallet (a : ProtoWalletArgs) : Except WErr ProtoWallet :=
  match a.type with
  | .keyDeriver => (NewKeyDeriver a.privateKeyArg).map ProtoWallet.mk
  | .privateKey => (NewKeyDeriver a.privateKeyArg).map ProtoWallet.mk
  | .anyone => (NewKeyDeriver none).map ProtoWallet.mk

/-- Arguments shared by the cryptographic operations. -/
structure EncryptionArgs where
  protocolID : WalletProtocol
  keyID : String
  counterparty : WalletCounterparty
deriving DecidableEq, Repr

/-- `EncryptArgs`. -/
structure EncryptArgs where
  base : EncryptionArgs
  plaintext : Bytes
deriving DecidableEq, Repr

/-- `DecryptArgs`. -/
structure DecryptArgs where
  base : EncryptionArgs
  ciphertext : Bytes
deriving DecidableEq, Repr

/-- `ProtoWallet.Encrypt`: defaults an uninitialised counterparty to
`Self`, derives a symmetric key and seals the plaintext. -/
def ProtoWallet.Encrypt (p : ProtoWallet) (args : EncryptArgs) :
    Except WErr Bytes :=
  let counterparty :=
    if args.base.counterparty = .uninit then WalletCounterparty.self
    else args.base.counterparty
  match DeriveSymmetricKey p.keyDeriver args.base.protocolID args.base.keyID
      counterparty with
  | .error e => .error e
  | .ok key => .ok (sealModel key args.plaintext)

/-- `ProtoWallet.Decrypt`.  The source computes a defaulted
`counterpartyObj` (uninitialised → `Self`) but then passes the original
`args.Counterparty` to `DeriveSymmetricKey`; the dead store is kept. -/
def ProtoWallet.Decrypt (p : ProtoWallet) (args : DecryptArgs) :
    Except WErr Bytes :=
  let _counterpartyObj :=
    if args.base.counterparty = .uninit then WalletCounterparty.self
    else args.base.counterparty
  match DeriveSymmetricKey p.keyDeriver args.base.protocolID args.base.keyID
      args.base.counterparty with
  | .error e => .error e
  | .ok key => openModel key args.ciphertext

/-- `CreateSignatureArgs`. -/
structure CreateSignatureArgs where
  base : EncryptionArgs
  data : Bytes
  hashToDirectlySign : Bytes
deriving DecidableEq, Repr

/-- `VerifySignatureArgs`. -/
structure VerifySignatureArgs where
  base : EncryptionArgs
  data : Bytes
  hashToDirectlyVerify : Bytes
  signature : SigModel
  forSelf : Bool
deriving DecidableEq, Repr

/-- `ProtoWallet.CreateSignature`: requires data or a pre-hash, hashes
data with SHA-256 when no pre-hash is supplied, defaults the counterparty
to `Anyone`, derives the private key and signs. -/
def ProtoWallet.CreateSignature (p : ProtoWallet)
    (args : CreateSignatureArgs) : Except WErr SigModel :=
  if args.data.length = 0 ∧ args.hashToDirectlySign.length = 0 then
    .error .noPayload
  else
    let dataHash :=
      if args.hashToDirectlySign.length > 0 then args.hashToDirectlySign
      else sha256M args.data
    let counterparty :=
      if args.base.counterparty = .uninit then WalletCounterparty.anyone
      else args.base.counterparty
    match DerivePrivateKey p.keyDeriver args.base.protocolID args.base.keyID
        counterparty with
    | .error e => .error e
    | .ok privKey => signModel privKey dataHash

/-- `ProtoWallet.VerifySignature`: requires data or a pre-hash, defaults
the counterparty to `Self`, derives the public key and verifies; a
cryptographic verification failure is returned as an error. -/
def ProtoWallet.VerifySignature (p : ProtoWallet)
    (args : VerifySignatureArgs) : Except WErr Bool :=
  if args.data.length = 0 ∧ args.hashToDirectlyVerify.length = 0 then
    .error .noPayload
  else
    let dataHash :=
      if args.hashToDirectlyVerify.length > 0 then args.hashToDirectlyVerify
      else sha256M args.data
    let counterparty :=
      if args.base.counterparty = .uninit then WalletCounterparty.self
      else args.base.counterparty
    match DerivePublicKey p.keyDeriver args.base.protocolID args.base.keyID
        counterparty args.forSelf with
    | .error e => .error e
    | .ok pubKey =>
      if verifyModel args.signature dataHash pubKey then .ok true
      else .error .sigInvalid

/-! ## Shared helper lemmas -/

theorem invoice_tests_4 :
    computeInvoiceNumber ⟨2, "tests"⟩ "4" = .ok "2-tests-4" := by decide

theorem mod_mod_nOrder (x : Nat) : x % nOrder % nOrder = x % nOrder :=
  Nat.mod_mod_of_dvd x dvd_rfl

theorem mul_mod_comm_nOrder (a b : Nat) :
    a * (b % nOrder) % nOrder = b * (a % nOrder) % nOrder := by
  conv_lhs => rw [Nat.mul_mod, mod_mod_nOrder, ← Nat.mul_mod]
  conv_rhs => rw [Nat.mul_mod, mod_mod_nOrder, ← Nat.mul_mod]
  rw [Nat.mul_comm]

/-! ## Claim theorems -/

/-- C1: the scenario E1 round-trip fails on the code.  For every root key
and every plaintext, `ProtoWallet.Encrypt` with the protocol `(2,
"tests")`, keyID `"4"` and counterparty `Self` — explicitly, or defaulted
from `Uninitialised` — returns the "cannot derive symmetric key for self"
error instead of a ciphertext: the operation's `Self` default collides
with `DeriveSymmetricKey`'s rejection of `Self`, so `decrypt(encrypt(m))
= m` cannot hold. -/
theorem claim_C1_encrypt_self_errors (d : Nat) (m : Bytes) :
    (ProtoWallet.mk (mkKeyDeriver d)).Encrypt
        ⟨⟨⟨2, "tests"⟩, "4", .self⟩, m⟩ = .error .selfSymmetric ∧
    (ProtoWallet.mk (mkKeyDeriver d)).Encrypt
        ⟨⟨⟨2, "tests"⟩, "4", .uninit⟩, m⟩ = .error .selfSymmetric := by
  constructor <;> rfl

/-- C2: `ProtoWallet.Decrypt` with an uninitialised counterparty does not
behave as with `Self`.  The source computes the defaulted counterparty
but passes the original `args.Counterparty`, so derivation runs with the
uninitialised value, `normalizeCounterparty` returns nil and the child
derivation dereferences it (run-time panic), whereas the `Self` path
returns the self-symmetric error. -/
theorem claim_C2_decrypt_uninit_differs (d : Nat) (ct : Bytes) :
    (ProtoWallet.mk (mkKeyDeriver d)).Decrypt
        ⟨⟨⟨2, "tests"⟩, "4", .uninit⟩, ct⟩ = .error .nilPanic ∧
    (ProtoWallet.mk (mkKeyDeriver d)).Decrypt
        ⟨⟨⟨2, "tests"⟩, "4", .self⟩, ct⟩ = .error .selfSymmetric ∧
    (ProtoWallet.mk (mkKeyDeriver d)).Decrypt
        ⟨⟨⟨2, "tests"⟩, "4", .uninit⟩, ct⟩ ≠
      (ProtoWallet.mk (mkKeyDeriver d)).Decrypt
        ⟨⟨⟨2, "tests"⟩, "4", .self⟩, ct⟩ := by
  have h1 : (ProtoWallet.mk (mkKeyDeriver d)).Decrypt
      ⟨⟨⟨2, "tests"⟩, "4", .uninit⟩, ct⟩ = .error .nilPanic := by
    simp [ProtoWallet.Decrypt, DeriveSymmetricKey, DerivePublicKey,
      normalizeCounterparty, invoice_tests_4, pubDeriveChild]
  have h2 : (ProtoWallet.mk (mkKeyDeriver d)).Decrypt
      ⟨⟨⟨2, "tests"⟩, "4", .self⟩, ct⟩ = .error .selfSymmetric := rfl
  exact ⟨h1, h2, by rw [h1, h2]; decide⟩

/-- C3: `DeriveSymmetricKey` does not always return 32 bytes.  The source
returns `sharedSecret.X.Bytes()`, the minimal big-endian form of the
x-coordinate, which drops leading zero bytes; at the concrete input below
(root scalar 2, protocol `(2, "tests")`, keyID `"224"`, counterparty the
public key of scalar 3) the derived key has 31 bytes. -/
theorem claim_C3_symmetric_key_short :
    (DeriveSymmetricKey (mkKeyDeriver 2) ⟨2, "tests"⟩ "224"
        (.other (pubOf 3))).toOption.map List.length = some 31 := by
  decide

/-- C4: for every protocol and keyID — valid or not — symmetric
derivation with counterparty `Self` returns the self-symmetric error
before any validation or derivation work; with counterparty `Anyone` it
is definitionally the derivation for `Other(G)` (`G` the public key of
the scalar-1 anyone key), and on inputs whose invoice number validates it
can only succeed or report one of the spec's negligible degeneracies. -/
theorem claim_C4_symmetric_self_anyone (kd : KeyDeriver)
    (p : WalletProtocol) (k : String) :
    DeriveSymmetricKey kd p k .self = .error .selfSymmetric ∧
    DeriveSymmetricKey kd p k .anyone =
      DeriveSymmetricKey kd p k (.other (pubOf 1)) ∧
    ((∃ s, computeInvoiceNumber p k = .ok s) →
      (∃ bs, DeriveSymmetricKey kd p k .anyone = .ok bs) ∨
      DeriveSymmetricKey kd p k .anyone = .error .degenerate ∨
      DeriveSymmetricKey kd p k .anyone = .error .sharedSecretNil) := by
  refine ⟨rfl, rfl, ?_⟩
  rintro ⟨s, hs⟩
  by_cases h1 : childScalar kd.privateKey (pubOf 1) s = 0
  · right; left
    simp [DeriveSymmetricKey, DerivePublicKey, normalizeCounterparty, hs,
      pubDeriveChild, h1]
  · by_cases h2 : (pubOf 1 + childScalar kd.privateKey (pubOf 1) s) % nOrder = 0
    · right; left
      simp [DeriveSymmetricKey, DerivePublicKey, normalizeCounterparty, hs,
        pubDeriveChild, h1, h2]
    · by_cases h3 :
          (kd.privateKey + childScalar kd.privateKey (pubOf 1) s) % nOrder = 0
      · right; left
        simp [DeriveSymmetricKey, DerivePublicKey, DerivePrivateKey,
          normalizeCounterparty, hs, pubDeriveChild, privDeriveChild, h1, h2, h3]
      · by_cases h4 : (kd.privateKey + childScalar kd.privateKey (pubOf 1) s) *
            (pubOf 1 + childScalar kd.privateKey (pubOf 1) s) % nOrder = 0
        · right; right
          simp [DeriveSymmetricKey, DerivePublicKey, DerivePrivateKey,
            normalizeCounterparty, hs, pubDeriveChild, privDeriveChild,
            deriveSharedSecret, h1, h2, h3, h4]
        · left
          refine ⟨natBytesBE ((kd.privateKey + childScalar kd.privateKey (pubOf 1) s) *
            (pubOf 1 + childScalar kd.privateKey (pubOf 1) s) % nOrder), ?_⟩
          simp [DeriveSymmetricKey, DerivePublicKey, DerivePrivateKey,
            normalizeCounterparty, hs, pubDeriveChild, privDeriveChild,
            deriveSharedSecret, h1, h2, h3, h4]

/-- C4 witness: at the concrete valid input the `Self` rejection, the
`Anyone = Other(G)` identity and a successful `Anyone` derivation are all
realised. -/
theorem claim_C4_witness :
    DeriveSymmetricKey (mkKeyDeriver 2) ⟨2, "tests"⟩ "4" .self =
      .error .selfSymmetric ∧
    DeriveSymmetricKey (mkKeyDeriver 2) ⟨2, "tests"⟩ "4" .anyone =
      DeriveSymmetricKey (mkKeyDeriver 2) ⟨2, "tests"⟩ "4"
        (.other (pubOf 1)) ∧
    ((∃ bs, DeriveSymmetricKey (mkKeyDeriver 2) ⟨2, "tests"⟩ "4" .anyone =
        .ok bs) ∨
      DeriveSymmetricKey (mkKeyDeriver 2) ⟨2, "tests"⟩ "4" .anyone =
        .error .degenerate ∨
      DeriveSymmetricKey (mkKeyDeriver 2) ⟨2, "tests"⟩ "4" .anyone =
        .error .sharedSecretNil) :=
  ⟨(claim_C4_symmetric_self_anyone (mkKeyDeriver 2) ⟨2, "tests"⟩ "4").1,
   (claim_C4_symmetric_self_anyone (mkKeyDeriver 2) ⟨2, "tests"⟩ "4").2.1,
   (claim_C4_symmetric_self_anyone (mkKeyDeriver 2) ⟨2, "tests"⟩ "4").2.2
     ⟨"2-tests-4", by decide⟩⟩

/-- C5: cross-party public-key agreement.  For all root scalars `a`, `b`
and every protocol and keyID, the public key `A` derives for counterparty
`pubB` with `forSelf = false` is the one `B` derives for counterparty
`pubA` with `forSelf = true` — including agreement of the error cases. -/
theorem claim_C5_cross_party_agreement (a b : Nat) (p : WalletProtocol)
    (k : String) :
    DerivePublicKey (mkKeyDeriver a) p k (.other (pubOf b)) false =
      DerivePublicKey (mkKeyDeriver b) p k (.other (pubOf a)) true := by
  simp only [DerivePublicKey, normalizeCounterparty, mkKeyDeriver]
  cases computeInvoiceNumber p k with
  | error e => rfl
  | ok inv =>
      simp only [Bool.false_eq_true, if_false, if_true, pubDeriveChild,
        privDeriveChild, childScalar, pubOf, mul_mod_comm_nOrder a b,
        Nat.mod_add_mod, mod_mod_nOrder]
      split_ifs <;> simp [Except.map, pubOf, mod_mod_nOrder, Nat.mod_add_mod]

/-- C10: `NewProtoWallet` with args of type `anyone` does not construct a
wallet rooted at the scalar-1 key: the source calls `NewKeyDeriver(nil)`,
whose `privateKey.PubKey()` dereferences the nil root key, so
construction faults (for any value of the unused private-key field). -/
theorem claim_C10_anyone_constructor_faults (pk : Option Nat) :
    NewProtoWallet ⟨.anyone, pk⟩ = .error .nilPanic := rfl

/-- Helper: every success of `invoiceTail` returns the canonical
`level-name-keyID` string. -/
theorem invoiceTail_ok (level : Int) (name keyID s : String)
    (h : invoiceTail level name keyID = .ok s) :
    s = toString level ++ "-" ++ name ++ "-" ++ keyID := by
  unfold invoiceTail at h
  split_ifs at h
  exact (Except.ok.inj h).symm

/-- Helper: the stand-in SHA-256 always yields 32 bytes. -/
theorem sha256M_length (d : Bytes) : (sha256M d).length = 32 := by
  simp [sha256M, leBytes_length]

/-- C6: `computeInvoiceNumber` returns exactly the canonical
`"{securityLevel}-{normalisedName}-{keyID}"` string on every input
that passes validation, it depends on the protocol only through the
security level and the trimmed lower-cased name (so equal normalised
triples give byte-identical strings), and the concrete D1 vector
`(2, "testprotocol")` with keyID `"12345"` yields exactly
`"2-testprotocol-12345"`. -/
theorem claim_C6_invoice_number :
    (∀ (p : WalletProtocol) (k s : String), computeInvoiceNumber p k = .ok s →
      s = toString p.SecurityLevel ++ "-" ++
        goToLower (goTrimSpace p.Protocol) ++ "-" ++ k) ∧
    (∀ (p₁ p₂ : WalletProtocol) (k : String),
      p₁.SecurityLevel = p₂.SecurityLevel →
      goToLower (goTrimSpace p₁.Protocol) = goToLower (goTrimSpace p₂.Protocol) →
      computeInvoiceNumber p₁ k = computeInvoiceNumber p₂ k) ∧
    computeInvoiceNumber ⟨2, "testprotocol"⟩ "12345" =
      .ok "2-testprotocol-12345" := by
  refine ⟨?_, ?_, by decide⟩
  · intro p k s h
    simp only [computeInvoiceNumber] at h
    split_ifs at h <;> first
      | cases h
      | exact invoiceTail_ok _ _ _ _ h
  · intro p₁ p₂ k h1 h2
    unfold computeInvoiceNumber
    rw [h1, h2]

/-- C6 witness: the format clause instantiated at `(0, "alpha")` with
keyID `"9"`, and the determinism clause at two protocols that normalise
alike. -/
theorem claim_C6_witness :
    ("0-alpha-9" : String) =
      toString (0 : Int) ++ "-" ++ goToLower (goTrimSpace "alpha") ++ "-" ++ "9" ∧
    computeInvoiceNumber ⟨1, "  Hello World "⟩ "k1" =
      computeInvoiceNumber ⟨1, "hello world"⟩ "k1" :=
  ⟨claim_C6_invoice_number.1 ⟨0, "alpha"⟩ "9" "0-alpha-9" (by decide),
   claim_C6_invoice_number.2.1 ⟨1, "  Hello World "⟩ ⟨1, "hello world"⟩ "k1"
     rfl (by decide)⟩

/-- C9: `CreateSignature` and `VerifySignature` reject the empty payload
(no data and no pre-hash) with the no-payload error; with a pre-hash of
any length other than 32 bytes they never succeed; and the digest they
sign/verify is SHA-256 of the data when no pre-hash is supplied, and the
supplied pre-hash otherwise. -/
theorem claim_C9_signature_payload (w : ProtoWallet) (cs : CreateSignatureArgs)
    (vs : VerifySignatureArgs) :
    (cs.data = [] → cs.hashToDirectlySign = [] →
      w.CreateSignature cs = .error .noPayload) ∧
    (vs.data = [] → vs.hashToDirectlyVerify = [] →
      w.VerifySignature vs = .error .noPayload) ∧
    (cs.hashToDirectlySign ≠ [] → cs.hashToDirectlySign.length ≠ 32 →
      ∀ r, w.CreateSignature cs ≠ .ok r) ∧
    (vs.hashToDirectlyVerify ≠ [] → vs.hashToDirectlyVerify.length ≠ 32 →
      ∀ b, w.VerifySignature vs ≠ .ok b) ∧
    (cs.hashToDirectlySign = [] → ∀ r, w.CreateSignature cs = .ok r →
      r.digest = sha256M cs.data) ∧
    (cs.hashToDirectlySign ≠ [] → ∀ r, w.CreateSignature cs = .ok r →
      r.digest = cs.hashToDirectlySign) ∧
    (vs.hashToDirectlyVerify = [] → ∀ b, w.VerifySignature vs = .ok b →
      vs.signature.digest = sha256M vs.data) ∧
    (vs.hashToDirectlyVerify ≠ [] → ∀ b, w.VerifySignature vs = .ok b →
      vs.signature.digest = vs.hashToDirectlyVerify) := by
  refine ⟨?_, ?_, ?_, ?_, ?_, ?_, ?_, ?_⟩
  · intro h1 h2
    simp [ProtoWallet.CreateSignature, h1, h2]
  · intro h1 h2
    simp [ProtoWallet.VerifySignature, h1, h2]
  · intro hne hlen r
    have hl0 : cs.hashToDirectlySign.length ≠ 0 := by
      simpa [List.length_eq_zero] using hne
    simp only [ProtoWallet.CreateSignature, hl0, and_false, if_false,
      gt_iff_lt, Nat.pos_of_ne_zero hl0, if_true]
    cases hD : DerivePrivateKey w.keyDeriver cs.base.protocolID cs.base.keyID
        (if cs.base.counterparty = .uninit then .anyone
         else cs.base.counterparty) with
    | error e => simp
    | ok k => simp [signModel, hlen]
  · intro hne hlen b
    have hl0 : vs.hashToDirectlyVerify.length ≠ 0 := by
      simpa [List.length_eq_zero] using hne
    simp only [ProtoWallet.VerifySignature, hl0, and_false, if_false,
      gt_iff_lt, Nat.pos_of_ne_zero hl0, if_true]
    cases hD : DerivePublicKey w.keyDeriver vs.base.protocolID vs.base.keyID
        (if vs.base.counterparty = .uninit then .self
         else vs.base.counterparty) vs.forSelf with
    | error e => simp
    | ok pub =>
        by_cases hv : verifyModel vs.signature vs.hashToDirectlyVerify pub
        · exfalso
          simp only [verifyModel, Bool.and_eq_true, decide_eq_true_eq] at hv
          exact hlen (hv.2 ▸ hv.1.1)
        · simp [hv]
  · intro h0 r hok
    simp only [ProtoWallet.CreateSignature, h0] at hok
    by_cases hd : cs.data.length = 0
    · simp [hd, List.length_nil] at hok
    · simp only [hd, List.length_nil, and_true, false_and, if_false,
        gt_iff_lt, Nat.lt_irrefl, if_neg, Nat.not_lt_zero] at hok
      cases hD : DerivePrivateKey w.keyDeriver cs.base.protocolID cs.base.keyID
          (if cs.base.counterparty = .uninit then .anyone
           else cs.base.counterparty) with
      | error e => simp only [hD] at hok; cases hok
      | ok k =>
          simp only [hD, signModel, sha256M_length] at hok
          split_ifs at hok
          cases hok
          rfl
  · intro hne r hok
    have hl0 : cs.hashToDirectlySign.length ≠ 0 := by
      simpa [List.length_eq_zero] using hne
    simp only [ProtoWallet.CreateSignature, hl0, and_false, if_false,
      gt_iff_lt, Nat.pos_of_ne_zero hl0, if_true] at hok
    cases hD : DerivePrivateKey w.keyDeriver cs.base.protocolID cs.base.keyID
        (if cs.base.counterparty = .uninit then .anyone
         else cs.base.counterparty) with
    | error e => simp only [hD] at hok; cases hok
    | ok k =>
        simp only [hD, signModel] at hok
        split_ifs at hok
        cases hok
        rfl
  · intro h0 b hok
    simp only [ProtoWallet.VerifySignature, h0] at hok
    by_cases hd : vs.data.length = 0
    · simp [hd, List.length_nil] at hok
    · simp only [hd, List.length_nil, and_true, false_and, if_false,
        gt_iff_lt, Nat.lt_irrefl, if_neg, Nat.not_lt_zero] at hok
      cases hD : DerivePublicKey w.keyDeriver vs.base.protocolID vs.base.keyID
          (if vs.base.counterparty = .uninit then .self
           else vs.base.counterparty) vs.forSelf with
      | error e => simp only [hD] at hok; cases hok
      | ok pub =>
          simp only [hD] at hok
          split_ifs at hok with hv
          · simp only [verifyModel, Bool.and_eq_true, decide_eq_true_eq] at hv
            exact hv.2
  · intro hne b hok
    have hl0 : vs.hashToDirectlyVerify.length ≠ 0 := by
      simpa [List.length_eq_zero] using hne
    simp only [ProtoWallet.VerifySignature, hl0, and_false, if_false,
      gt_iff_lt, Nat.pos_of_ne_zero hl0, if_true] at hok
    cases hD : DerivePublicKey w.keyDeriver vs.base.protocolID vs.base.keyID
        (if vs.base.counterparty = .uninit then .self
         else vs.base.counterparty) vs.forSelf with
    | error e => simp only [hD] at hok; cases hok
    | ok pub =>
        simp only [hD] at hok
        split_ifs at hok with hv
        · simp only [verifyModel, Bool.and_eq_true, decide_eq_true_eq] at hv
          exact hv.2

/-- C9 witness: the clauses of the signature-payload theorem realised at
concrete arguments (root scalar 5, protocol `(2, "tests")`, keyID `"4"`,
counterparty the public key of scalar 3). -/
theorem claim_C9_witness :
    (ProtoWallet.mk (mkKeyDeriver 5)).CreateSignature
        ⟨⟨⟨2, "tests"⟩, "4", .other (pubOf 3)⟩, [], []⟩ = .error .noPayload ∧
    (ProtoWallet.mk (mkKeyDeriver 5)).VerifySignature
        ⟨⟨⟨2, "tests"⟩, "4", .other (pubOf 3)⟩, [], [], ⟨0, []⟩, false⟩ =
      .error .noPayload ∧
    (ProtoWallet.mk (mkKeyDeriver 5)).CreateSignature
        ⟨⟨⟨2, "tests"⟩, "4", .other (pubOf 3)⟩, [], List.replicate 31 1⟩ ≠
      .ok ⟨0, []⟩ ∧
    (ProtoWallet.mk (mkKeyDeriver 5)).VerifySignature
        ⟨⟨⟨2, "tests"⟩, "4", .other (pubOf 3)⟩, [], List.replicate 31 1,
          ⟨0, []⟩, false⟩ ≠ .ok true ∧
    (SigModel.mk
        65445581554382029368381105067207042879413197867247989156715168295965201743533
        (sha256M [1, 2])).digest = sha256M [1, 2] ∧
    (SigModel.mk
        65445581554382029368381105067207042879413197867247989156715168295965201743533
        (List.replicate 32 7)).digest = List.replicate 32 7 ∧
    (SigModel.mk
        65445581554382029368381105067207042879413197867247989156715168295965201743531
        (sha256M [1, 2])).digest = sha256M [1, 2] ∧
    (SigModel.mk
        65445581554382029368381105067207042879413197867247989156715168295965201743531
        (List.replicate 32 7)).digest = List.replicate 32 7 :=
  ⟨(claim_C9_signature_payload _ ⟨⟨⟨2, "tests"⟩, "4", .other (pubOf 3)⟩, [], []⟩
      ⟨⟨⟨2, "tests"⟩, "4", .other (pubOf 3)⟩, [], [], ⟨0, []⟩, false⟩).1 rfl rfl,
   (claim_C9_signature_payload _ ⟨⟨⟨2, "tests"⟩, "4", .other (pubOf 3)⟩, [], []⟩
      ⟨⟨⟨2, "tests"⟩, "4", .other (pubOf 3)⟩, [], [], ⟨0, []⟩, false⟩).2.1 rfl rfl,
   (claim_C9_signature_payload (ProtoWallet.mk (mkKeyDeriver 5))
      ⟨⟨⟨2, "tests"⟩, "4", .other (pubOf 3)⟩, [], List.replicate 31 1⟩
      ⟨⟨⟨2, "tests"⟩, "4", .other (pubOf 3)⟩, [], List.replicate 31 1,
        ⟨0, []⟩, false⟩).2.2.1 (by decide) (by decide) _,
   (claim_C9_signature_payload (ProtoWallet.mk (mkKeyDeriver 5))
      ⟨⟨⟨2, "tests"⟩, "4", .other (pubOf 3)⟩, [], List.replicate 31 1⟩
      ⟨⟨⟨2, "tests"⟩, "4", .other (pubOf 3)⟩, [], List.replicate 31 1,
        ⟨0, []⟩, false⟩).2.2.2.1 (by decide) (by decide) _,
   (claim_C9_signature_payload (ProtoWallet.mk (mkKeyDeriver 5))
      ⟨⟨⟨2, "tests"⟩, "4", .other (pubOf 3)⟩, [1, 2], []⟩
      ⟨⟨⟨2, "tests"⟩, "4", .other (pubOf 3)⟩, [], [], ⟨0, []⟩, false⟩).2.2.2.2.1
      rfl _ (by decide),
   (claim_C9_signature_payload (ProtoWallet.mk (mkKeyDeriver 5))
      ⟨⟨⟨2, "tests"⟩, "4", .other (pubOf 3)⟩, [], List.replicate 32 7⟩
      ⟨⟨⟨2, "tests"⟩, "4", .other (pubOf 3)⟩, [], [], ⟨0, []⟩, false⟩).2.2.2.2.2.1
      (by decide) _ (by decide),
   (claim_C9_signature_payload (ProtoWallet.mk (mkKeyDeriver 5))
      ⟨⟨⟨2, "tests"⟩, "4", .other (pubOf 3)⟩, [], []⟩
      ⟨⟨⟨2, "tests"⟩, "4", .other (pubOf 3)⟩, [1, 2], [],
        ⟨65445581554382029368381105067207042879413197867247989156715168295965201743531,
         sha256M [1, 2]⟩, false⟩).2.2.2.2.2.2.1 rfl true (by decide),
   (claim_C9_signature_payload (ProtoWallet.mk (mkKeyDeriver 5))
      ⟨⟨⟨2, "tests"⟩, "4", .other (pubOf 3)⟩, [], []⟩
      ⟨⟨⟨2, "tests"⟩, "4", .other (pubOf 3)⟩, [], List.replicate 32 7,
        ⟨65445581554382029368381105067207042879413197867247989156715168295965201743531,
         List.replicate 32 7⟩, false⟩).2.2.2.2.2.2.2 (by decide) true (by decide)⟩

/-! ## CachedKeyDeriver LRU cache -/

/-- `cacheKey`: the derivation fingerprint. -/
structure CacheKey where
  method : String
  protocol : WalletProtocol
  keyID : String
  counterparty : WalletCounterparty
  forSelf : Bool
deriving DecidableEq, Repr

/-- Go map lookup `c.cache.items[key]` over the association-list model. -/
def mapGet : List (CacheKey × Nat) → CacheKey → Option Nat
  | [], _ => none
  | (k', v) :: rest, k => if k' = k then some v else mapGet rest k

/-- In-place value update of an existing map entry. -/
def mapUpd : List (CacheKey × Nat) → CacheKey → Nat → List (CacheKey × Nat)
  | [], _, _ => []
  | (k', v') :: rest, k, v =>
      if k' = k then (k', v) :: rest else (k', v') :: mapUpd rest k v

/-- Go `delete(c.cache.items, key)`. -/
def mapDel : List (CacheKey × Nat) → CacheKey → List (CacheKey × Nat)
  | [], _ => []
  | (k', v') :: rest, k => if k' = k then rest else (k', v') :: mapDel rest k

/-- The `lruCache` of `CachedKeyDeriver` with its capacity: the map
`items`, and the recency list with the most recently used key in front.
Cached values are opaque (`Nat`). -/
structure LruCache where
  items : List (CacheKey × Nat)
  recency : List CacheKey
  maxCacheSize : Nat
deriving DecidableEq, Repr

/-- `NewCachedKeyDeriver`'s cache: empty map and list, capacity defaulted
to 1000 when the caller supplies a value ≤ 0. -/
def newCache (maxCacheSize : Int) : LruCache :=
  ⟨[], [], if maxCacheSize ≤ 0 then 1000 else maxCacheSize.toNat⟩

/-- `CachedKeyDeriver.cacheGet`: on a hit moves the key's element to the
front of the recency list. -/
def cacheGet (c : LruCache) (k : CacheKey) : Option Nat × LruCache :=
  match mapGet c.items k with
  | some v => (some v, { c with recency := k :: c.recency.erase k })
  | none => (none, c)

/-- `CachedKeyDeriver.cacheSet`: refreshes an existing entry and moves it
to the front; otherwise pushes the new entry in front and, when the map
has grown past `maxCacheSize`, deletes the entry at the back of the
recency list from both structures. -/
def cacheSet (c : LruCache) (k : CacheKey) (v : Nat) : LruCache :=
  if (mapGet c.items k).isSome then
    { c with items := mapUpd c.items k v, recency := k :: c.recency.erase k }
  else
    let items' := (k, v) :: c.items
    let rec' := k :: c.recency
    if items'.length > c.maxCacheSize then
      match rec'.getLast? with
      | some oldest => { c with items := mapDel items' oldest,
                                recency := rec'.dropLast }
      | none => { c with items := items', recency := rec' }
    else { c with items := items', recency := rec' }

/-- One cache operation, the footprint a derivation call leaves on the
cache: a lookup (hit or miss) or an insertion after a miss. -/
inductive CacheOp where
  | get (k : CacheKey)
  | set (k : CacheKey) (v : Nat)

/-- Run a sequence of cache operations. -/
def runOps (c : LruCache) : List CacheOp → LruCache
  | [] => c
  | .get k :: rest => runOps (cacheGet c k).2 rest
  | .set k v :: rest => runOps (cacheSet c k v) rest

theorem mapGet_none_iff (l : List (CacheKey × Nat)) (k : CacheKey) :
    mapGet l k = none ↔ k ∉ l.map Prod.fst := by
  induction l with
  | nil => simp [mapGet]
  | cons p rest ih =>
      obtain ⟨k', v⟩ := p
      by_cases h : k' = k <;> simp [mapGet, h, ih, eq_comm] <;> tauto

theorem mapUpd_keys (l : List (CacheKey × Nat)) (k : CacheKey) (v : Nat) :
    (mapUpd l k v).map Prod.fst = l.map Prod.fst := by
  induction l with
  | nil => rfl
  | cons p rest ih =>
      obtain ⟨k', v'⟩ := p
      by_cases h : k' = k <;> simp [mapUpd, h, ih]

theorem mapDel_keys (l : List (CacheKey × Nat)) (k : CacheKey) :
    (mapDel l k).map Prod.fst = (l.map Prod.fst).erase k := by
  induction l with
  | nil => rfl
  | cons p rest ih =>
      obtain ⟨k', v'⟩ := p
      by_cases h : k' = k <;> simp [mapDel, h, ih, List.erase_cons]

/-- Well-formedness: the map and the recency list hold identical key
sets (as a permutation), and the recency list has no duplicates. -/
def cacheWF (c : LruCache) : Prop :=
  (c.items.map Prod.fst).Perm c.recency ∧ c.recency.Nodup

theorem cacheWF_get (c : LruCache) (k : CacheKey) (h : cacheWF c) :
    cacheWF (cacheGet c k).2 := by
  obtain ⟨hperm, hnd⟩ := h
  unfold cacheGet
  cases hm : mapGet c.items k with
  | none => exact ⟨hperm, hnd⟩
  | some v =>
      have hk : k ∈ c.recency := by
        have : ¬ (k ∉ c.items.map Prod.fst) := by
          rw [← mapGet_none_iff, hm]; simp
        exact hperm.mem_iff.mp (not_not.mp this)
      refine ⟨hperm.trans (List.perm_cons_erase hk), ?_⟩
      exact List.nodup_cons.mpr ⟨hnd.not_mem_erase, hnd.erase k⟩


theorem mapGet_isSome_iff (l : List (CacheKey × Nat)) (k : CacheKey) :
    (mapGet l k).isSome = true ↔ k ∈ l.map Prod.fst := by
  rw [← not_iff_not, ← mapGet_none_iff l k]
  cases mapGet l k <;> simp

theorem mapUpd_length (l : List (CacheKey × Nat)) (k : CacheKey) (v : Nat) :
    (mapUpd l k v).length = l.length := by
  induction l with
  | nil => rfl
  | cons p rest ih =>
      obtain ⟨k', v'⟩ := p
      by_cases h : k' = k <;> simp [mapUpd, h, ih]


theorem erase_getLast_of_nodup (l : List CacheKey) (h : l ≠ [])
    (hnd : l.Nodup) : l.erase (l.getLast h) = l.dropLast := by
  induction l using List.reverseRecOn with
  | nil => exact absurd rfl h
  | append_singleton l' a ih =>
      have hnotmem : a ∉ l' := by
        have hd := List.disjoint_of_nodup_append hnd
        intro hmem
        exact hd hmem (by simp)
      rw [List.getLast_append_singleton, List.erase_append_right _ hnotmem,
        List.erase_cons_head, List.dropLast_concat, List.append_nil]

theorem cacheWF_set (c : LruCache) (k : CacheKey) (v : Nat) (h : cacheWF c) :
    cacheWF (cacheSet c k v) := by
  obtain ⟨hperm, hnd⟩ := h
  simp only [cacheSet]
  by_cases hsome : (mapGet c.items k).isSome = true
  · rw [if_pos hsome]
    have hk : k ∈ c.recency :=
      hperm.mem_iff.mp ((mapGet_isSome_iff _ _).mp hsome)
    refine ⟨?_, List.nodup_cons.mpr ⟨hnd.not_mem_erase, hnd.erase k⟩⟩
    rw [mapUpd_keys]
    exact hperm.trans (List.perm_cons_erase hk)
  · rw [if_neg hsome]
    have hkn : k ∉ c.recency := fun hk => by
      have hs : (mapGet c.items k).isSome = true :=
        (mapGet_isSome_iff _ _).mpr (hperm.mem_iff.mpr hk)
      exact hsome hs
    have hperm' : List.Perm (((k, v) :: c.items).map Prod.fst)
        (k :: c.recency) := by
      simpa using hperm.cons k
    have hnd' : (k :: c.recency).Nodup := List.nodup_cons.mpr ⟨hkn, hnd⟩
    by_cases hlen : ((k, v) :: c.items).length > c.maxCacheSize
    · rw [if_pos hlen]
      have hne : (k :: c.recency) ≠ [] := by simp
      rw [List.getLast?_eq_getLast _ hne]
      refine ⟨?_, hnd'.sublist (List.dropLast_sublist _)⟩
      rw [mapDel_keys]
      exact (hperm'.erase ((k :: c.recency).getLast hne)).trans
        (by rw [erase_getLast_of_nodup _ hne hnd'])
    · rw [if_neg hlen]
      exact ⟨hperm', hnd'⟩


theorem cacheGet_items (c : LruCache) (k : CacheKey) :
    (cacheGet c k).2.items = c.items := by
  unfold cacheGet
  cases mapGet c.items k <;> rfl

theorem cacheGet_max (c : LruCache) (k : CacheKey) :
    (cacheGet c k).2.maxCacheSize = c.maxCacheSize := by
  unfold cacheGet
  cases mapGet c.items k <;> rfl

theorem cacheSet_max (c : LruCache) (k : CacheKey) (v : Nat) :
    (cacheSet c k v).maxCacheSize = c.maxCacheSize := by
  simp only [cacheSet]
  split_ifs <;> rfl

theorem cacheSet_length (c : LruCache) (k : CacheKey) (v : Nat)
    (h : cacheWF c) (hlen : c.items.length ≤ c.maxCacheSize) :
    (cacheSet c k v).items.length ≤ c.maxCacheSize := by
  obtain ⟨hperm, hnd⟩ := h
  simp only [cacheSet]
  by_cases hsome : (mapGet c.items k).isSome = true
  · rw [if_pos hsome]
    simpa [mapUpd_length] using hlen
  · rw [if_neg hsome]
    by_cases hbig : ((k, v) :: c.items).length > c.maxCacheSize
    · rw [if_pos hbig]
      have hne : (k :: c.recency) ≠ [] := by simp
      rw [List.getLast?_eq_getLast _ hne]
      have hmem : (k :: c.recency).getLast hne ∈
          ((k, v) :: c.items).map Prod.fst := by
        have hp : List.Perm (((k, v) :: c.items).map Prod.fst)
            (k :: c.recency) := by simpa using hperm.cons k
        exact hp.mem_iff.mpr (List.getLast_mem hne)
      have hdel : (mapDel ((k, v) :: c.items)
          ((k :: c.recency).getLast hne)).length =
          ((k, v) :: c.items).length - 1 := by
        calc (mapDel ((k, v) :: c.items) ((k :: c.recency).getLast hne)).length
            = ((mapDel ((k, v) :: c.items)
                ((k :: c.recency).getLast hne)).map Prod.fst).length :=
              (List.length_map _ _).symm
          _ = ((((k, v) :: c.items).map Prod.fst).erase
                ((k :: c.recency).getLast hne)).length := by rw [mapDel_keys]
          _ = (((k, v) :: c.items).map Prod.fst).length - 1 :=
              List.length_erase_of_mem hmem
          _ = ((k, v) :: c.items).length - 1 := by rw [List.length_map]
      simp only [hdel, List.length_cons]
      omega
    · rw [if_neg hbig]
      simp only [List.length_cons] at hbig ⊢
      omega

/-- Invariant propagation over an arbitrary operation sequence. -/
theorem runOps_inv (ops : List CacheOp) (c : LruCache) (h : cacheWF c)
    (hlen : c.items.length ≤ c.maxCacheSize) :
    cacheWF (runOps c ops) ∧
    (runOps c ops).items.length ≤ (runOps c ops).maxCacheSize ∧
    (runOps c ops).maxCacheSize = c.maxCacheSize := by
  induction ops generalizing c with
  | nil => exact ⟨h, hlen, rfl⟩
  | cons op rest ih =>
      cases op with
      | get k =>
          have h' := cacheWF_get c k h
          have hlen' : (cacheGet c k).2.items.length ≤
              (cacheGet c k).2.maxCacheSize := by
            rw [cacheGet_items, cacheGet_max]; exact hlen
          obtain ⟨hw, hl, hm⟩ := ih (cacheGet c k).2 h' hlen'
          simp only [runOps]
          exact ⟨hw, hl, by rw [hm, cacheGet_max]⟩
      | set k v =>
          have h' := cacheWF_set c k v h
          have hlen' : (cacheSet c k v).items.length ≤
              (cacheSet c k v).maxCacheSize := by
            rw [cacheSet_max]; exact cacheSet_length c k v h hlen
          obtain ⟨hw, hl, hm⟩ := ih (cacheSet c k v) h' hlen'
          simp only [runOps]
          exact ⟨hw, hl, by rw [hm, cacheSet_max]⟩

/-- Eviction behaviour of `cacheSet` on a full cache and a fresh key. -/
theorem cacheSet_evict (c : LruCache) (k : CacheKey) (v : Nat)
    (h : cacheWF c) (hfull : c.items.length = c.maxCacheSize)
    (hfresh : mapGet c.items k = none) (hcap : 1 ≤ c.maxCacheSize) :
    (cacheSet c k v).items.length = c.maxCacheSize ∧
    (cacheSet c k v).recency = k :: c.recency.dropLast ∧
    List.Perm ((cacheSet c k v).items.map Prod.fst)
      (k :: c.recency.dropLast) := by
  obtain ⟨hperm, hnd⟩ := h
  have hsome : ¬ (mapGet c.items k).isSome = true := by simp [hfresh]
  have hkn : k ∉ c.recency := fun hk =>
    hsome ((mapGet_isSome_iff _ _).mpr (hperm.mem_iff.mpr hk))
  have hreclen : c.recency.length = c.maxCacheSize := by
    rw [← hperm.length_eq, List.length_map, hfull]
  have hrecne : c.recency ≠ [] := by
    intro hnil
    rw [hnil] at hreclen
    simp at hreclen
    omega
  have hbig : ((k, v) :: c.items).length > c.maxCacheSize := by
    simp [List.length_cons, hfull]
  have hne : (k :: c.recency) ≠ [] := by simp
  have hnd' : (k :: c.recency).Nodup := List.nodup_cons.mpr ⟨hkn, hnd⟩
  have hperm' : List.Perm (((k, v) :: c.items).map Prod.fst)
      (k :: c.recency) := by simpa using hperm.cons k
  have hg : (k :: c.recency).getLast hne = c.recency.getLast hrecne :=
    List.getLast_cons hrecne
  have hdl : (k :: c.recency).dropLast = k :: c.recency.dropLast :=
    List.dropLast_cons_of_ne_nil hrecne
  simp only [cacheSet]
  rw [if_neg hsome, if_pos hbig, List.getLast?_eq_getLast _ hne]
  refine ⟨?_, hdl, ?_⟩
  · have hmem : (k :: c.recency).getLast hne ∈
        ((k, v) :: c.items).map Prod.fst :=
      hperm'.mem_iff.mpr (List.getLast_mem hne)
    calc (mapDel ((k, v) :: c.items) ((k :: c.recency).getLast hne)).length
        = ((mapDel ((k, v) :: c.items)
            ((k :: c.recency).getLast hne)).map Prod.fst).length :=
          (List.length_map _ _).symm
      _ = ((((k, v) :: c.items).map Prod.fst).erase
            ((k :: c.recency).getLast hne)).length := by rw [mapDel_keys]
      _ = (((k, v) :: c.items).map Prod.fst).length - 1 :=
          List.length_erase_of_mem hmem
      _ = ((k, v) :: c.items).length - 1 := by rw [List.length_map]
      _ = c.maxCacheSize := by simp [List.length_cons, hfull]
  · rw [mapDel_keys]
    refine (hperm'.erase ((k :: c.recency).getLast hne)).trans ?_
    rw [erase_getLast_of_nodup _ hne hnd', hdl]


/-- C8: over every operation sequence on a cache constructed with
capacity argument `c0` (taken as 1000 when `c0 ≤ 0`), the capacity is as
constructed, the cache never holds more than that many entries, the
recency list and the map always hold identical key sets (a duplicate-free
permutation), and inserting a fresh key into a full cache evicts exactly
one entry — the least recently used one (the back of the recency list):
the new state keeps exactly capacity-many entries and its key set is the
fresh key plus all previous keys except the last of the recency list. -/
theorem claim_C8_lru_cache (c0 : Int) (ops : List CacheOp) :
    (runOps (newCache c0) ops).maxCacheSize =
      (if c0 ≤ 0 then 1000 else c0.toNat) ∧
    (runOps (newCache c0) ops).items.length ≤
      (if c0 ≤ 0 then 1000 else c0.toNat) ∧
    List.Perm ((runOps (newCache c0) ops).items.map Prod.fst)
      (runOps (newCache c0) ops).recency ∧
    (runOps (newCache c0) ops).recency.Nodup ∧
    (∀ k v,
      (runOps (newCache c0) ops).items.length =
        (if c0 ≤ 0 then 1000 else c0.toNat) →
      mapGet (runOps (newCache c0) ops).items k = none →
      (cacheSet (runOps (newCache c0) ops) k v).items.length =
        (if c0 ≤ 0 then 1000 else c0.toNat) ∧
      (cacheSet (runOps (newCache c0) ops) k v).recency =
        k :: (runOps (newCache c0) ops).recency.dropLast ∧
      List.Perm
        ((cacheSet (runOps (newCache c0) ops) k v).items.map Prod.fst)
        (k :: (runOps (newCache c0) ops).recency.dropLast)) := by
  have hinit : cacheWF (newCache c0) := ⟨List.Perm.refl [], List.nodup_nil⟩
  have hlen0 : (newCache c0).items.length ≤ (newCache c0).maxCacheSize := by
    simp [newCache]
  obtain ⟨hw, hl, hm⟩ := runOps_inv ops (newCache c0) hinit hlen0
  have hmax : (runOps (newCache c0) ops).maxCacheSize =
      (if c0 ≤ 0 then 1000 else c0.toNat) := by
    rw [hm]; rfl
  have hcap : 1 ≤ (if c0 ≤ 0 then 1000 else c0.toNat) := by
    split_ifs with hc
    · omega
    · omega
  refine ⟨hmax, hmax ▸ hl, hw.1, hw.2, ?_⟩
  intro k v hfull hfresh
  have hfull' : (runOps (newCache c0) ops).items.length =
      (runOps (newCache c0) ops).maxCacheSize := by rw [hmax]; exact hfull
  have hcap' : 1 ≤ (runOps (newCache c0) ops).maxCacheSize := by
    rw [hmax]; exact hcap
  obtain ⟨h1, h2, h3⟩ :=
    cacheSet_evict (runOps (newCache c0) ops) k v hw hfull' hfresh hcap'
  exact ⟨by rw [h1, hmax], h2, h3⟩

/-- C8 witness: capacity 2, two inserts, then a fresh third key — the
oldest entry is evicted and the bound holds. -/
theorem claim_C8_witness :
    (cacheSet (runOps (newCache 2)
        [.set ⟨"derivePublicKey", ⟨2, "tests"⟩, "1", .self, false⟩ 1,
         .set ⟨"derivePublicKey", ⟨2, "tests"⟩, "2", .self, false⟩ 2])
      ⟨"derivePublicKey", ⟨2, "tests"⟩, "3", .self, false⟩ 5).items.length = 2 ∧
    (cacheSet (runOps (newCache 2)
        [.set ⟨"derivePublicKey", ⟨2, "tests"⟩, "1", .self, false⟩ 1,
         .set ⟨"derivePublicKey", ⟨2, "tests"⟩, "2", .self, false⟩ 2])
      ⟨"derivePublicKey", ⟨2, "tests"⟩, "3", .self, false⟩ 5).recency =
      ⟨"derivePublicKey", ⟨2, "tests"⟩, "3", .self, false⟩ ::
        (runOps (newCache 2)
          [.set ⟨"derivePublicKey", ⟨2, "tests"⟩, "1", .self, false⟩ 1,
           .set ⟨"derivePublicKey", ⟨2, "tests"⟩, "2", .self, false⟩ 2]).recency.dropLast ∧
    List.Perm
      ((cacheSet (runOps (newCache 2)
          [.set ⟨"derivePublicKey", ⟨2, "tests"⟩, "1", .self, false⟩ 1,
           .set ⟨"derivePublicKey", ⟨2, "tests"⟩, "2", .self, false⟩ 2])
        ⟨"derivePublicKey", ⟨2, "tests"⟩, "3", .self, false⟩ 5).items.map Prod.fst)
      (⟨"derivePublicKey", ⟨2, "tests"⟩, "3", .self, false⟩ ::
        (runOps (newCache 2)
          [.set ⟨"derivePublicKey", ⟨2, "tests"⟩, "1", .self, false⟩ 1,
           .set ⟨"derivePublicKey", ⟨2, "tests"⟩, "2", .self, false⟩ 2]).recency.dropLast) :=
  (claim_C8_lru_cache 2
    [.set ⟨"derivePublicKey", ⟨2, "tests"⟩, "1", .self, false⟩ 1,
     .set ⟨"derivePublicKey", ⟨2, "tests"⟩, "2", .self, false⟩ 2]).2.2.2.2
    ⟨"derivePublicKey", ⟨2, "tests"⟩, "3", .self, false⟩ 5
    (by decide) (by decide)


end GoSdk

namespace GoSdk

/-! ## Wire codec primitives (modelled from the spec §4.6) -/

/-- The `0xFFFFFFFFFFFFFFFF` "absent / -1" sentinel. -/
def sentinel64 : Nat := 0xFFFFFFFFFFFFFFFF

/-- Modelled from the spec: the Bitcoin-style varint writer of the
`util`/serializer wire layer. -/
def writeVarInt (n : Nat) : Bytes :=
  if n < 0xFD then [n]
  else if n ≤ 0xFFFF then 0xFD :: leBytes 2 n
  else if n ≤ 0xFFFFFFFF then 0xFE :: leBytes 4 n
  else 0xFF :: leBytes 8 (n % 2 ^ 64)

/-- Modelled from the spec: read one byte. -/
def readByteR : Bytes → Except String (Nat × Bytes)
  | [] => .error "read past end of data"
  | b :: rest => .ok (b, rest)

/-- Modelled from the spec: read exactly `n` bytes (the Go reader's
`readBytes`; its `int` cast is faithful below `2^63`, the range the
round-trip theorem constrains lengths to). -/
def readBytesR : Nat → Bytes → Except String (Bytes × Bytes)
  | 0, d => .ok ([], d)
  | _ + 1, [] => .error "read past end of data"
  | n + 1, b :: rest =>
      match readBytesR n rest with
      | .error e => .error e
      | .ok (bs, d) => .ok (b :: bs, d)

/-- Modelled from the spec: the varint reader. -/
def readVarIntR (d : Bytes) : Except String (Nat × Bytes) :=
  match readByteR d with
  | .error e => .error e
  | .ok (b, d) =>
    if b < 0xFD then .ok (b, d)
    else if b = 0xFD then
      match readBytesR 2 d with
      | .error e => .error e
      | .ok (bs, d) => .ok (leVal bs, d)
    else if b = 0xFE then
      match readBytesR 4 d with
      | .error e => .error e
      | .ok (bs, d) => .ok (leVal bs, d)
    else
      match readBytesR 8 d with
      | .error e => .error e
      | .ok (bs, d) => .ok (leVal bs, d)

theorem readBytesR_append (xs r : Bytes) :
    readBytesR xs.length (xs ++ r) = .ok (xs, r) := by
  induction xs with
  | nil => rfl
  | cons b rest ih => simp [readBytesR, ih]

theorem leBytes_append_reads (k n : Nat) (r : Bytes) (h : n < 256 ^ k) :
    readBytesR k (leBytes k n ++ r) = .ok (leBytes k n, r) := by
  have := readBytesR_append (leBytes k n) r
  rwa [leBytes_length] at this

theorem readVarIntR_writeVarInt (n : Nat) (h : n < 2 ^ 64) (r : Bytes) :
    readVarIntR (writeVarInt n ++ r) = .ok (n, r) := by
  unfold writeVarInt readVarIntR
  split_ifs with h1 h2 h3
  · simp [readByteR, h1]
  · have hlt : n < 256 ^ 2 := by norm_num; omega
    simp [readByteR, leBytes_append_reads 2 n r hlt, leVal_leBytes 2 n hlt]
  · have hlt : n < 256 ^ 4 := by norm_num; omega
    simp [readByteR, leBytes_append_reads 4 n r hlt, leVal_leBytes 4 n hlt]
  · have hlt : n < 256 ^ 8 := by norm_num at h ⊢; omega
    have hmod : n % 18446744073709551616 = n := by
      apply Nat.mod_eq_of_lt
      norm_num at h
      exact h
    simp [readByteR, hmod, leBytes_append_reads 8 n r hlt,
      leVal_leBytes 8 n hlt]

end GoSdk

namespace GoSdk

/-- Go strings are byte sequences; the wire layer treats them as such. -/
abbrev GoStr := List Nat

/-- Lower-case hex digit of a value below 16 (`encoding/hex`). -/
def hexDigit (n : Nat) : Nat := if n < 10 then 48 + n else 87 + n

/-- `hex.EncodeToString`: lower-case hex over bytes. -/
def hexEnc (bs : Bytes) : GoStr :=
  (bs.map (fun b => [hexDigit (b / 16), hexDigit (b % 16)])).join

/-- Value of one hex digit character (`hex.DecodeString` accepts both
cases). -/
def hexDigitVal (c : Nat) : Option Nat :=
  if 48 ≤ c ∧ c ≤ 57 then some (c - 48)
  else if 97 ≤ c ∧ c ≤ 102 then some (c - 87)
  else if 65 ≤ c ∧ c ≤ 70 then some (c - 55)
  else none

/-- `hex.DecodeString`. -/
def hexDec : GoStr → Except String Bytes
  | [] => .ok []
  | [_] => .error "odd length hex string"
  | c1 :: c2 :: rest =>
      match hexDigitVal c1, hexDigitVal c2, hexDec rest with
      | some h, some l, .ok bs => .ok ((16 * h + l) :: bs)
      | _, _, _ => .error "invalid hex"

/-- A lower-case hex digit character. -/
def isHexLower (c : Nat) : Bool :=
  (48 ≤ c && c ≤ 57) || (97 ≤ c && c ≤ 102)

/-- Canonical lower-case, even-length hex string: the exact image of
`hex.EncodeToString`. -/
def canonHex (s : GoStr) : Bool :=
  s.length % 2 == 0 && s.all isHexLower

theorem hexDigit_val_of_lower (c : Nat) (h : isHexLower c = true) :
    ∃ v, hexDigitVal c = some v ∧ v < 16 ∧ hexDigit v = c := by
  simp only [isHexLower, Bool.or_eq_true, Bool.and_eq_true,
    decide_eq_true_eq] at h
  rcases h with ⟨h1, h2⟩ | ⟨h1, h2⟩
  · exact ⟨c - 48, by simp [hexDigitVal, h1, h2], by omega,
      by unfold hexDigit; split_ifs <;> omega⟩
  · refine ⟨c - 87, ?_, by omega, by unfold hexDigit; split_ifs <;> omega⟩
    have hn : ¬(48 ≤ c ∧ c ≤ 57) := by omega
    simp [hexDigitVal, hn, h1, h2]

theorem canonHex_spec (s : GoStr) (h : canonHex s = true) :
    ∃ bs, hexDec s = .ok bs ∧ hexEnc bs = s ∧ 2 * bs.length = s.length := by
  have H : ∀ (n : Nat) (s : GoStr), s.length = n → canonHex s = true →
      ∃ bs, hexDec s = .ok bs ∧ hexEnc bs = s ∧ 2 * bs.length = s.length := by
    intro n
    induction n using Nat.strong_induction_on with
    | _ n ih =>
        intro s hlen hcan
        match s with
        | [] => exact ⟨[], rfl, rfl, rfl⟩
        | [c] =>
            exfalso
            simp [canonHex] at hcan
        | c1 :: c2 :: rest =>
            simp only [canonHex, List.length_cons, List.all_cons,
              Bool.and_eq_true, beq_iff_eq] at hcan
            obtain ⟨hmod, hc1, hc2, hrest⟩ := hcan
            have hcanrest : canonHex rest = true := by
              simp only [canonHex, Bool.and_eq_true, beq_iff_eq]
              exact ⟨by omega, hrest⟩
            have hn : n = rest.length + 2 := by
              simp only [List.length_cons] at hlen
              omega
            obtain ⟨bs, hdec, henc, hlen2⟩ :=
              ih rest.length (by omega) rest rfl hcanrest
            obtain ⟨h1, hv1, hlt1, hd1⟩ := hexDigit_val_of_lower c1 hc1
            obtain ⟨h2, hv2, hlt2, hd2⟩ := hexDigit_val_of_lower c2 hc2
            refine ⟨(16 * h1 + h2) :: bs, ?_, ?_, ?_⟩
            · simp [hexDec, hv1, hv2, hdec]
            · have hq : (16 * h1 + h2) / 16 = h1 := by omega
              have hr : (16 * h1 + h2) % 16 = h2 := by omega
              simp [hexEnc, List.join] at henc ⊢
              simp [hq, hr, hd1, hd2, henc]
            · simp at hlen2 ⊢
              omega
  exact H s.length s rfl h

end GoSdk

namespace GoSdk

/-- Canonical decimal digits of `n`, most significant first (fuel-based;
32 digits cover every `uint64`). -/
def decReprAux : Nat → Nat → GoStr
  | 0, _ => []
  | f + 1, n =>
      if n < 10 then [48 + n] else decReprAux f (n / 10) ++ [48 + n % 10]

/-- Canonical decimal representation of a natural number. -/
def decRepr (n : Nat) : GoStr := decReprAux 32 n

/-- Digit-accumulating parse loop of `strconv.ParseUint(s, 10, 32)`. -/
def parseDecAux : GoStr → Nat → Except String Nat
  | [], acc => .ok acc
  | c :: rest, acc =>
      if 48 ≤ c ∧ c ≤ 57 then parseDecAux rest (acc * 10 + (c - 48))
      else .error "invalid syntax"

/-- `strconv.ParseUint(s, 10, 32)`: digits only, non-empty, below
`2^32`. -/
def parseDec (s : GoStr) : Except String Nat :=
  if s.isEmpty then .error "invalid syntax"
  else
    match parseDecAux s 0 with
    | .error e => .error e
    | .ok v => if v < 2 ^ 32 then .ok v else .error "value out of range"

theorem parseDecAux_append (a b : GoStr) (acc : Nat) (v : Nat)
    (h : parseDecAux a acc = .ok v) :
    parseDecAux (a ++ b) acc = parseDecAux b v := by
  induction a generalizing acc with
  | nil => cases h; rfl
  | cons c rest ih =>
      simp only [parseDecAux] at h
      split_ifs at h with hc
      simp only [List.cons_append, parseDecAux, if_pos hc]
      exact ih _ h

theorem parseDecAux_decReprAux (f n acc : Nat) (h : n < 10 ^ f) :
    parseDecAux (decReprAux f n) acc =
      .ok (acc * 10 ^ (decReprAux f n).length + n) := by
  induction f generalizing n acc with
  | zero => simp at h; simp [decReprAux, parseDecAux, h]
  | succ f ih =>
      by_cases hn : n < 10
      · simp only [decReprAux, if_pos hn, parseDecAux]
        rw [if_pos (by omega)]
        simp only [parseDecAux, List.length_cons, List.length_nil]
        norm_num
      · have hdiv : n / 10 < 10 ^ f := by
          rw [Nat.div_lt_iff_lt_mul (by norm_num)]
          calc n < 10 ^ (f + 1) := h
            _ = 10 ^ f * 10 := by ring
        simp only [decReprAux, if_neg hn]
        rw [parseDecAux_append _ _ _ _ (ih (n / 10) acc hdiv)]
        simp only [parseDecAux]
        rw [if_pos (by have := Nat.mod_lt n (show 0 < 10 by norm_num); omega)]
        simp only [parseDecAux, List.length_append, List.length_cons,
          List.length_nil]
        congr 1
        have hmd : 48 + n % 10 - 48 = n % 10 := by omega
        rw [hmd, pow_succ]
        have := Nat.div_add_mod n 10
        ring_nf
        omega

theorem decReprAux_ne_nil (f n : Nat) (hf : 0 < f) : decReprAux f n ≠ [] := by
  cases f with
  | zero => omega
  | succ f =>
      simp only [decReprAux]
      split_ifs <;> simp

theorem decReprAux_digits (f n : Nat) :
    ∀ c ∈ decReprAux f n, 48 ≤ c ∧ c ≤ 57 := by
  induction f generalizing n with
  | zero => simp [decReprAux]
  | succ f ih =>
      simp only [decReprAux]
      split_ifs with hn
      · intro c hc
        simp at hc
        omega
      · intro c hc
        simp only [List.mem_append, List.mem_singleton] at hc
        rcases hc with hc | hc
        · exact ih (n / 10) c hc
        · have := Nat.mod_lt n (show 0 < 10 by norm_num)
          omega

theorem parseDec_decRepr (n : Nat) (h : n < 2 ^ 32) :
    parseDec (decRepr n) = .ok n := by
  have hf : n < 10 ^ 32 := by
    calc n < 2 ^ 32 := h
      _ ≤ 10 ^ 32 := Nat.pow_le_pow_left (by norm_num) 32
  have hne := decReprAux_ne_nil 32 n (by norm_num)
  have hp := parseDecAux_decReprAux 32 n 0 hf
  simp only [parseDec, decRepr]
  rw [if_neg (by simpa [List.isEmpty_iff] using hne)]
  rw [hp]
  simp only [Nat.zero_mul, Nat.zero_add]
  rw [if_pos h]

end GoSdk

namespace GoSdk

/-- Canonical decimal string: parses and re-prints to itself. -/
def canonDec (s : GoStr) : Bool :=
  match parseDec s with
  | .ok v => decRepr v == s
  | .error _ => false

/-- Modelled from the spec: `encodeOutpoint` — parse the in-memory
`"txid.index"` string into 32 raw txid bytes plus 4 little-endian index
bytes (spec §4.6 "Outpoint"). -/
def encodeOutpoint (s : GoStr) : Except String Bytes :=
  let t := s.takeWhile (fun c => c ≠ 46)
  let r := s.dropWhile (fun c => c ≠ 46)
  match r with
  | 46 :: idx =>
      match hexDec t with
      | .error e => .error e
      | .ok tb =>
          if tb.length ≠ 32 then .error "invalid txid length"
          else
            match parseDec idx with
            | .error e => .error e
            | .ok i => .ok (tb ++ leBytes 4 i)
  | _ => .error "invalid outpoint format"

/-- Modelled from the spec: `decodeOutpoint` — 36 wire bytes back to the
`"txid.index"` string. -/
def decodeOutpoint (b : Bytes) : Except String GoStr :=
  if b.length ≠ 36 then .error "invalid outpoint data"
  else .ok (hexEnc (b.take 32) ++ 46 :: decRepr (leVal (b.drop 32)))

/-- Canonical outpoint string: canonical 64-digit txid hex, a dot, and a
canonical decimal index. -/
def canonOutpoint (s : GoStr) : Bool :=
  (canonHex (s.takeWhile (fun c => c ≠ 46)) &&
    (s.takeWhile (fun c => c ≠ 46)).length == 64) &&
  (match s.dropWhile (fun c => c ≠ 46) with
   | 46 :: idx => canonDec idx
   | _ => false)

end GoSdk

namespace GoSdk

theorem parseDec_lt (s : GoStr) (v : Nat) (h : parseDec s = .ok v) :
    v < 2 ^ 32 := by
  unfold parseDec at h
  by_cases h1 : s.isEmpty = true
  · rw [if_pos h1] at h; cases h
  · rw [if_neg h1] at h
    cases hpp : parseDecAux s 0 with
    | error e => simp only [hpp] at h; cases h
    | ok w =>
        simp only [hpp] at h
        split_ifs at h with h2
        cases h
        exact h2

theorem dropWhile_head_not (p : Nat → Bool) (l : List Nat) (c : Nat)
    (cs : List Nat) (h : l.dropWhile p = c :: cs) : p c = false := by
  induction l with
  | nil => cases h
  | cons a l ih =>
      by_cases hpa : p a = true
      · rw [List.dropWhile_cons, if_pos hpa] at h
        exact ih h
      · rw [List.dropWhile_cons, if_neg hpa] at h
        cases h
        simpa using hpa

theorem canonOutpoint_spec (s : GoStr) (h : canonOutpoint s = true) :
    ∃ ob, encodeOutpoint s = .ok ob ∧ ob.length = 36 ∧
      decodeOutpoint ob = .ok s := by
  simp only [canonOutpoint, Bool.and_eq_true, beq_iff_eq] at h
  obtain ⟨⟨hhex, hlen64⟩, hrest⟩ := h
  cases hr : s.dropWhile (fun c => c ≠ 46) with
  | nil => rw [hr] at hrest; cases hrest
  | cons c idx =>
      rw [hr] at hrest
      have hc : c = 46 := by
        have hnp := dropWhile_head_not (fun c => decide (c ≠ 46)) s c idx hr
        simpa using hnp
      subst hc
      have hcdec : canonDec idx = true := hrest
      obtain ⟨tb, hdec, henc, hlen2⟩ := canonHex_spec _ hhex
      have htblen : tb.length = 32 := by omega
      obtain ⟨i, hpi, hdi⟩ : ∃ i, parseDec idx = .ok i ∧ decRepr i = idx := by
        unfold canonDec at hcdec
        cases hp : parseDec idx with
        | error e => rw [hp] at hcdec; cases hcdec
        | ok v =>
            rw [hp] at hcdec
            exact ⟨v, rfl, by simpa using hcdec⟩
      have hilt : i < 2 ^ 32 := parseDec_lt idx i hpi
      refine ⟨tb ++ leBytes 4 i, ?_, ?_, ?_⟩
      · simp only [encodeOutpoint, hr, hdec, hpi]
        rw [if_neg (by omega)]
      · simp [htblen, leBytes_length]
      · have hoblen : (tb ++ leBytes 4 i).length = 36 := by
          simp [htblen, leBytes_length]
        have htake : (tb ++ leBytes 4 i).take 32 = tb := by
          rw [← htblen]; exact List.take_left tb _
        have hdrop : (tb ++ leBytes 4 i).drop 32 = leBytes 4 i := by
          rw [← htblen]; exact List.drop_left tb _
        have hval : leVal (leBytes 4 i) = i :=
          leVal_leBytes 4 i (by norm_num at hilt ⊢; omega)
        unfold decodeOutpoint
        rw [if_neg (by omega)]
        rw [htake, hdrop, hval, henc, hdi]
        rw [← hr, List.takeWhile_append_dropWhile]

end GoSdk

namespace GoSdk

/-! ## Create-action wire codec (substrates serializer) -/

/-- `CreateActionInput` as the substrates serializer consumes it: the
outpoint and scripts are Go strings (the script in hex). -/
structure CreateActionInput where
  outpoint : GoStr
  unlockingScript : GoStr
  unlockingScriptLength : Nat
  inputDescription : GoStr
  sequenceNumber : Nat
deriving DecidableEq, Repr

/-- `CreateActionOutput`. -/
structure CreateActionOutput where
  lockingScript : GoStr
  satoshis : Nat
  outputDescription : GoStr
  basket : GoStr
  customInstructions : GoStr
  tags : Option (List GoStr)
deriving DecidableEq, Repr

/-- `CreateActionOptions` (nil Go slices and nil bool pointers are
`none`). -/
structure CreateActionOptions where
  signAndProcess : Option Bool
  acceptDelayedBroadcast : Option Bool
  trustSelf : GoStr
  knownTxids : Option (List GoStr)
  returnTXIDOnly : Option Bool
  noSend : Option Bool
  noSendChange : Option (List GoStr)
  sendWith : Option (List GoStr)
  randomizeOutputs : Option Bool
deriving DecidableEq, Repr

/-- `CreateActionArgs`. -/
structure CreateActionArgs where
  description : GoStr
  inputBEEF : Option Bytes
  inputs : Option (List CreateActionInput)
  outputs : Option (List CreateActionOutput)
  lockTime : Nat
  version : Nat
  labels : Option (List GoStr)
  options : Option CreateActionOptions
deriving DecidableEq, Repr

/-- The bytes of the Go string `"known"`. -/
def knownBytes : GoStr := [107, 110, 111, 119, 110]

/-- Length-prefixed byte-string write (`writeVarInt(len)` +
`writeBytes`). -/
def wStr (s : GoStr) : Bytes := writeVarInt s.length ++ s

/-- Optional byte-slice write: `-1` sentinel for nil. -/
def wOptBytes : Option Bytes → Bytes
  | none => writeVarInt sentinel64
  | some b => writeVarInt b.length ++ b

/-- Optional bool write: `1` / `0` / `0xFF`. -/
def wOptBool : Option Bool → Bytes
  | some true => [1]
  | some false => [0]
  | none => [0xFF]

/-- Write of a `uint32` field where `0` is transmitted as the `-1`
sentinel (`if x > 0 { writeVarInt(x) } else { writeVarInt(-1) }`). -/
def wOptU32 (n : Nat) : Bytes :=
  if n > 0 then writeVarInt n else writeVarInt sentinel64

/-- Sequence a fallible per-element serializer over a list and
concatenate, stopping at the first error (the Go loop). -/
def serCat {α : Type} (f : α → Except String Bytes) :
    List α → Except String Bytes
  | [] => .ok []
  | x :: xs =>
      match f x with
      | .error e => .error e
      | .ok b =>
          match serCat f xs with
          | .error e => .error e
          | .ok bs => .ok (b ++ bs)

/-- Txid-slice write: count, then 32 raw bytes per txid decoded from
hex (no per-item length). -/
def serTxidSlice : Option (List GoStr) → Except String Bytes
  | none => .ok (writeVarInt sentinel64)
  | some l =>
      match serCat (fun t => hexDec t) l with
      | .error e => .error e
      | .ok body => .ok (writeVarInt l.length ++ body)

/-- Outpoint-slice write: count, then 36 bytes per outpoint. -/
def serOutpointSlice : Option (List GoStr) → Except String Bytes
  | none => .ok (writeVarInt sentinel64)
  | some l =>
      match serCat encodeOutpoint l with
      | .error e => .error e
      | .ok body => .ok (writeVarInt l.length ++ body)

/-- String-slice write: count, then length-prefixed strings. -/
def serStrSlice : Option (List GoStr) → Bytes
  | none => writeVarInt sentinel64
  | some l => writeVarInt l.length ++ (l.map wStr).join

/-- Optional-string write: the `-1` sentinel for the empty Go string,
else length-prefixed bytes (`if s != "" { writeString } else
{ writeVarInt(-1) }`). -/
def wOptStrE (s : GoStr) : Bytes :=
  if s.isEmpty then writeVarInt sentinel64 else wStr s

/-- One input of `SerializeCreateActionArgs`: outpoint, unlocking script
(hex) or `-1` + declared length, description, sequence number. -/
def serializeCreateActionInput (i : CreateActionInput) :
    Except String Bytes :=
  match encodeOutpoint i.outpoint with
  | .error e => .error e
  | .ok op =>
    if i.unlockingScript.isEmpty then
      .ok (op ++ (writeVarInt sentinel64 ++
        writeVarInt i.unlockingScriptLength) ++
        wStr i.inputDescription ++ wOptU32 i.sequenceNumber)
    else
      match hexDec i.unlockingScript with
      | .error e => .error e
      | .ok sb =>
        .ok (op ++ (writeVarInt sb.length ++ sb) ++
          wStr i.inputDescription ++ wOptU32 i.sequenceNumber)

/-- One output: locking script bytes, satoshis, description, optional
basket and custom instructions, tags. -/
def serializeCreateActionOutput (o : CreateActionOutput) :
    Except String Bytes :=
  match hexDec o.lockingScript with
  | .error e => .error e
  | .ok sb =>
      .ok (writeVarInt sb.length ++ sb ++ writeVarInt o.satoshis ++
        wStr o.outputDescription ++ wOptStrE o.basket ++
        wOptStrE o.customInstructions ++ serStrSlice o.tags)

/-- The options block: presence byte then the nine option fields in
source order. -/
def serializeOptions : Option CreateActionOptions → Except String Bytes
  | none => .ok [0]
  | some o =>
      match serTxidSlice o.knownTxids with
      | .error e => .error e
      | .ok kt =>
        match serOutpointSlice o.noSendChange with
        | .error e => .error e
        | .ok nsc =>
          match serTxidSlice o.sendWith with
          | .error e => .error e
          | .ok sw =>
            .ok ([1] ++ wOptBool o.signAndProcess ++
              wOptBool o.acceptDelayedBroadcast ++
              (if o.trustSelf = knownBytes then [1] else [0xFF]) ++
              kt ++ wOptBool o.returnTXIDOnly ++ wOptBool o.noSend ++
              nsc ++ sw ++ wOptBool o.randomizeOutputs)

/-- The inputs block: `-1` for a nil slice, else count and the
serialized inputs. -/
def serInputSlice : Option (List CreateActionInput) → Except String Bytes
  | none => .ok (writeVarInt sentinel64)
  | some l =>
      match serCat serializeCreateActionInput l with
      | .error e => .error e
      | .ok body => .ok (writeVarInt l.length ++ body)

/-- The outputs block: `-1` for a nil slice, else count and the
serialized outputs. -/
def serOutputSlice : Option (List CreateActionOutput) → Except String Bytes
  | none => .ok (writeVarInt sentinel64)
  | some l =>
      match serCat serializeCreateActionOutput l with
      | .error e => .error e
      | .ok body => .ok (writeVarInt l.length ++ body)

/-- `SerializeCreateActionArgs`, field for field in source order. -/
def SerializeCreateActionArgs (a : CreateActionArgs) :
    Except String Bytes :=
  match serInputSlice a.inputs with
  | .error e => .error e
  | .ok inputsPart =>
    match serOutputSlice a.outputs with
    | .error e => .error e
    | .ok outputsPart =>
      match serializeOptions a.options with
      | .error e => .error e
      | .ok optionsPart =>
        .ok (wStr a.description ++ wOptBytes a.inputBEEF ++ inputsPart ++
          outputsPart ++ wOptU32 a.lockTime ++ wOptU32 a.version ++
          serStrSlice a.labels ++ optionsPart)

end GoSdk

namespace GoSdk

/-- Go `uint32(x)` of a varint that may be the `-1` sentinel (the
sentinel leaves the struct's zero value). -/
def u32FromSentinel (v : Nat) : Nat :=
  if v = sentinel64 then 0 else v % 2 ^ 32

/-- Length-prefixed byte-string read. -/
def rdString (d : Bytes) : Except String (GoStr × Bytes) :=
  match readVarIntR d with
  | .error e => .error e
  | .ok (n, d) => readBytesR n d

/-- Optional byte-slice read (`-1` sentinel means nil). -/
def rdOptBytes (d : Bytes) : Except String (Option Bytes × Bytes) :=
  match readVarIntR d with
  | .error e => .error e
  | .ok (n, d) =>
    if n = sentinel64 then .ok (none, d)
    else
      match readBytesR n d with
      | .error e => .error e
      | .ok (bs, d) => .ok (some bs, d)

/-- Optional string read where the sentinel leaves the Go zero value
(the empty string). -/
def rdOptStr (d : Bytes) : Except String (GoStr × Bytes) :=
  match readVarIntR d with
  | .error e => .error e
  | .ok (n, d) =>
    if n = sentinel64 then .ok ([], d) else readBytesR n d

/-- `uint32` field read where the sentinel leaves the zero value. -/
def rdU32Sentinel (d : Bytes) : Except String (Nat × Bytes) :=
  match readVarIntR d with
  | .error e => .error e
  | .ok (n, d) => .ok (u32FromSentinel n, d)

/-- Optional bool read: `0xFF` is nil, anything else compares to `1`. -/
def rdOptBool (d : Bytes) : Except String (Option Bool × Bytes) :=
  match readByteR d with
  | .error e => .error e
  | .ok (b, d) => .ok ((if b = 0xFF then none else some (b == 1)), d)

/-- Read `n` consecutive elements (the Go `for i < n` loop). -/
def rdN {α : Type} (rd : Bytes → Except String (α × Bytes)) :
    Nat → Bytes → Except String (List α × Bytes)
  | 0, d => .ok ([], d)
  | n + 1, d =>
      match rd d with
      | .error e => .error e
      | .ok (x, d) =>
          match rdN rd n d with
          | .error e => .error e
          | .ok (xs, d) => .ok (x :: xs, d)

/-- String-slice read. -/
def rdStrSlice (d : Bytes) :
    Except String (Option (List GoStr) × Bytes) :=
  match readVarIntR d with
  | .error e => .error e
  | .ok (n, d) =>
    if n = sentinel64 then .ok (none, d)
    else
      match rdN rdString n d with
      | .error e => .error e
      | .ok (l, d) => .ok (some l, d)

/-- One txid read: 32 raw bytes re-encoded to hex. -/
def rdTxid (d : Bytes) : Except String (GoStr × Bytes) :=
  match readBytesR 32 d with
  | .error e => .error e
  | .ok (bs, d) => .ok (hexEnc bs, d)

/-- Txid-slice read. -/
def rdTxidSlice (d : Bytes) :
    Except String (Option (List GoStr) × Bytes) :=
  match readVarIntR d with
  | .error e => .error e
  | .ok (n, d) =>
    if n = sentinel64 then .ok (none, d)
    else
      match rdN rdTxid n d with
      | .error e => .error e
      | .ok (l, d) => .ok (some l, d)

/-- One outpoint read: 36 bytes decoded back to `"txid.index"`. -/
def rdOutpointStr (d : Bytes) : Except String (GoStr × Bytes) :=
  match readBytesR 36 d with
  | .error e => .error e
  | .ok (ob, d) =>
      match decodeOutpoint ob with
      | .error e => .error e
      | .ok s => .ok (s, d)

/-- Outpoint-slice read. -/
def rdOutpointSlice (d : Bytes) :
    Except String (Option (List GoStr) × Bytes) :=
  match readVarIntR d with
  | .error e => .error e
  | .ok (n, d) =>
    if n = sentinel64 then .ok (none, d)
    else
      match rdN rdOutpointStr n d with
      | .error e => .error e
      | .ok (l, d) => .ok (some l, d)

/-- One input of `DeserializeCreateActionArgs`, in source order. -/
def rdInput (d0 : Bytes) : Except String (CreateActionInput × Bytes) :=
  match rdOutpointStr d0 with
  | .error e => .error e
  | .ok (op, d1) =>
    match readVarIntR d1 with
    | .error e => .error e
    | .ok (uslen, d2) =>
      if uslen ≠ sentinel64 then
        match readBytesR uslen d2 with
        | .error e => .error e
        | .ok (sb, d3) =>
          match rdString d3 with
          | .error e => .error e
          | .ok (desc, d4) =>
            match readVarIntR d4 with
            | .error e => .error e
            | .ok (seqv, d5) =>
              .ok (⟨op, hexEnc sb, 0, desc, u32FromSentinel seqv⟩, d5)
      else
        match readVarIntR d2 with
        | .error e => .error e
        | .ok (lenv, d3) =>
          match rdString d3 with
          | .error e => .error e
          | .ok (desc, d4) =>
            match readVarIntR d4 with
            | .error e => .error e
            | .ok (seqv, d5) =>
              .ok (⟨op, [], lenv % 2 ^ 32, desc,
                u32FromSentinel seqv⟩, d5)

/-- One output, in source order. -/
def rdOutput (d0 : Bytes) : Except String (CreateActionOutput × Bytes) :=
  match rdString d0 with
  | .error e => .error e
  | .ok (sb, d1) =>
    match readVarIntR d1 with
    | .error e => .error e
    | .ok (sat, d2) =>
      match rdString d2 with
      | .error e => .error e
      | .ok (odesc, d3) =>
        match rdOptStr d3 with
        | .error e => .error e
        | .ok (basket, d4) =>
          match rdOptStr d4 with
          | .error e => .error e
          | .ok (ci, d5) =>
            match rdStrSlice d5 with
            | .error e => .error e
            | .ok (tags, d6) =>
              .ok (⟨hexEnc sb, sat, odesc, basket, ci, tags⟩, d6)

/-- The options block, in source order; a presence byte other than `1`
leaves the options nil. -/
def rdOptions (d0 : Bytes) :
    Except String (Option CreateActionOptions × Bytes) :=
  match readByteR d0 with
  | .error e => .error e
  | .ok (flag, d1) =>
    if flag = 1 then
      match rdOptBool d1 with
      | .error e => .error e
      | .ok (sap, d2) =>
        match rdOptBool d2 with
        | .error e => .error e
        | .ok (adb, d3) =>
          match readByteR d3 with
          | .error e => .error e
          | .ok (ts, d4) =>
            match rdTxidSlice d4 with
            | .error e => .error e
            | .ok (kt, d5) =>
              match rdOptBool d5 with
              | .error e => .error e
              | .ok (rto, d6) =>
                match rdOptBool d6 with
                | .error e => .error e
                | .ok (ns, d7) =>
                  match rdOutpointSlice d7 with
                  | .error e => .error e
                  | .ok (nsc, d8) =>
                    match rdTxidSlice d8 with
                    | .error e => .error e
                    | .ok (sw, d9) =>
                      match rdOptBool d9 with
                      | .error e => .error e
                      | .ok (ro, d10) =>
                        .ok (some ⟨sap, adb,
                          (if ts = 1 then knownBytes else []), kt, rto,
                          ns, nsc, sw, ro⟩, d10)
    else .ok (none, d1)

/-- The inputs block read: the sentinel count means a nil slice. -/
def rdInputSlice (d : Bytes) :
    Except String (Option (List CreateActionInput) × Bytes) :=
  match readVarIntR d with
  | .error e => .error e
  | .ok (n, d) =>
    if n = sentinel64 then .ok (none, d)
    else
      match rdN rdInput n d with
      | .error e => .error e
      | .ok (l, d) => .ok (some l, d)

/-- The outputs block read: the sentinel count means a nil slice. -/
def rdOutputSlice (d : Bytes) :
    Except String (Option (List CreateActionOutput) × Bytes) :=
  match readVarIntR d with
  | .error e => .error e
  | .ok (n, d) =>
    if n = sentinel64 then .ok (none, d)
    else
      match rdN rdOutput n d with
      | .error e => .error e
      | .ok (l, d) => .ok (some l, d)

/-- The reading core of `DeserializeCreateActionArgs`, leaving the
unread remainder. -/
def rdArgs (d0 : Bytes) : Except String (CreateActionArgs × Bytes) :=
  match rdString d0 with
  | .error e => .error e
  | .ok (desc, d1) =>
    match rdOptBytes d1 with
    | .error e => .error e
    | .ok (beef, d2) =>
      match rdInputSlice d2 with
      | .error e => .error e
      | .ok (inputs, d3) =>
        match rdOutputSlice d3 with
        | .error e => .error e
        | .ok (outputs, d4) =>
          match rdU32Sentinel d4 with
          | .error e => .error e
          | .ok (lockTime, d5) =>
            match rdU32Sentinel d5 with
            | .error e => .error e
            | .ok (version, d6) =>
              match rdStrSlice d6 with
              | .error e => .error e
              | .ok (labels, d7) =>
                match rdOptions d7 with
                | .error e => .error e
                | .ok (options, d8) =>
                  .ok (⟨desc, beef, inputs, outputs, lockTime, version,
                    labels, options⟩, d8)

/-- `DeserializeCreateActionArgs`: rejects the empty message, reads the
argument structure and returns it, ignoring any unread trailing bytes —
the source performs no trailing-data check. -/
def DeserializeCreateActionArgs (data : Bytes) :
    Except String CreateActionArgs :=
  if data.length = 0 then .error "empty message"
  else
    match rdArgs data with
    | .error e => .error e
    | .ok (a, _) => .ok a

end GoSdk

namespace GoSdk

/-- Length bound under which every wire length is varint-exact and
distinct from the sentinel (Go lengths are `int`s below `2^62` in every
reachable state). -/
def lenOK (n : Nat) : Bool := n < 2 ^ 62

theorem sentinel64_lt : sentinel64 < 2 ^ 64 := by decide

theorem lenOK_lt (n : Nat) (h : lenOK n = true) : n < 2 ^ 64 := by
  simp only [lenOK, decide_eq_true_eq] at h
  calc n < 2 ^ 62 := h
    _ < 2 ^ 64 := by norm_num

theorem lenOK_ne_sentinel (n : Nat) (h : lenOK n = true) :
    n ≠ sentinel64 := by
  simp only [lenOK, decide_eq_true_eq] at h
  intro hn
  rw [hn] at h
  norm_num [sentinel64] at h

theorem rdString_wStr (s : GoStr) (h : lenOK s.length = true) (r : Bytes) :
    rdString (wStr s ++ r) = .ok (s, r) := by
  simp only [rdString, wStr, List.append_assoc,
    readVarIntR_writeVarInt s.length (lenOK_lt _ h) (s ++ r),
    readBytesR_append]

theorem rdOptBytes_wOptBytes (b : Option Bytes)
    (h : ∀ x, b = some x → lenOK x.length = true) (r : Bytes) :
    rdOptBytes (wOptBytes b ++ r) = .ok (b, r) := by
  cases b with
  | none =>
      simp only [rdOptBytes, wOptBytes,
        readVarIntR_writeVarInt sentinel64 sentinel64_lt r]
      simp
  | some x =>
      have hx := h x rfl
      simp only [rdOptBytes, wOptBytes, List.append_assoc,
        readVarIntR_writeVarInt x.length (lenOK_lt _ hx) (x ++ r),
        readBytesR_append, if_neg (lenOK_ne_sentinel _ hx)]

theorem rdOptStr_sentinel (r : Bytes) :
    rdOptStr (writeVarInt sentinel64 ++ r) = .ok ([], r) := by
  simp only [rdOptStr,
    readVarIntR_writeVarInt sentinel64 sentinel64_lt r]
  simp

theorem rdOptStr_wStr (s : GoStr) (h : lenOK s.length = true) (r : Bytes) :
    rdOptStr (wStr s ++ r) = .ok (s, r) := by
  simp only [rdOptStr, wStr, List.append_assoc,
    readVarIntR_writeVarInt s.length (lenOK_lt _ h) (s ++ r),
    readBytesR_append, if_neg (lenOK_ne_sentinel _ h)]

theorem rdU32Sentinel_wOptU32 (n : Nat) (h : n < 2 ^ 32) (r : Bytes) :
    rdU32Sentinel (wOptU32 n ++ r) = .ok (n, r) := by
  unfold wOptU32
  by_cases hn : n > 0
  · rw [if_pos hn]
    have h64 : n < 2 ^ 64 := by norm_num at h ⊢; omega
    have hns : n ≠ sentinel64 := by
      intro hc; rw [hc] at h; norm_num [sentinel64] at h
    simp only [rdU32Sentinel, readVarIntR_writeVarInt n h64 r,
      u32FromSentinel, if_neg hns, Nat.mod_eq_of_lt h]
  · rw [if_neg hn]
    have hn0 : n = 0 := by omega
    subst hn0
    simp only [rdU32Sentinel,
      readVarIntR_writeVarInt sentinel64 sentinel64_lt r]
    simp [u32FromSentinel]

theorem rdOptBool_wOptBool (b : Option Bool) (r : Bytes) :
    rdOptBool (wOptBool b ++ r) = .ok (b, r) := by
  cases b with
  | none => simp [rdOptBool, wOptBool, readByteR]
  | some v => cases v <;> simp [rdOptBool, wOptBool, readByteR]

theorem rdN_serCat {α : Type} (f : α → Except String Bytes)
    (rd : Bytes → Except String (α × Bytes)) (l : List α)
    (h : ∀ x ∈ l, ∃ b, f x = .ok b ∧ ∀ r, rd (b ++ r) = .ok (x, r)) :
    ∃ bs, serCat f l = .ok bs ∧
      ∀ r, rdN rd l.length (bs ++ r) = .ok (l, r) := by
  induction l with
  | nil => exact ⟨[], rfl, fun r => rfl⟩
  | cons x xs ih =>
      obtain ⟨b, hb, hrd⟩ := h x (by simp)
      obtain ⟨bs, hbs, hrds⟩ := ih (fun y hy => h y (by simp [hy]))
      refine ⟨b ++ bs, ?_, ?_⟩
      · simp [serCat, hb, hbs]
      · intro r
        simp only [List.length_cons, rdN, List.append_assoc, hrd, hrds]

theorem rdTxid_canon (t : GoStr) (h : canonHex t = true)
    (hlen : t.length = 64) :
    ∃ b, hexDec t = .ok b ∧ ∀ r, rdTxid (b ++ r) = .ok (t, r) := by
  obtain ⟨bs, hdec, henc, hl⟩ := canonHex_spec t h
  refine ⟨bs, hdec, fun r => ?_⟩
  have h32 : bs.length = 32 := by omega
  have hread := readBytesR_append bs r
  rw [h32] at hread
  simp only [rdTxid, hread, henc]

theorem rdOutpointStr_canon (s : GoStr) (h : canonOutpoint s = true) :
    ∃ b, encodeOutpoint s = .ok b ∧
      ∀ r, rdOutpointStr (b ++ r) = .ok (s, r) := by
  obtain ⟨ob, henc, hlen, hdec⟩ := canonOutpoint_spec s h
  refine ⟨ob, henc, fun r => ?_⟩
  have hread := readBytesR_append ob r
  rw [hlen] at hread
  simp only [rdOutpointStr, hread, hdec]

end GoSdk

namespace GoSdk

theorem serCat_pure {α : Type} (g : α → Bytes) (l : List α) :
    serCat (fun x => .ok (g x)) l = .ok ((l.map g).join) := by
  induction l with
  | nil => rfl
  | cons x xs ih => simp [serCat, ih]

/-- A canonical 32-byte txid hex string. -/
def canonTxid (t : GoStr) : Bool := canonHex t && t.length == 64

theorem rdStrSlice_ser (o : Option (List GoStr))
    (h : ∀ l, o = some l → lenOK l.length = true ∧
      ∀ x ∈ l, lenOK x.length = true) (r : Bytes) :
    rdStrSlice (serStrSlice o ++ r) = .ok (o, r) := by
  cases o with
  | none =>
      simp only [serStrSlice, rdStrSlice,
        readVarIntR_writeVarInt sentinel64 sentinel64_lt r]
      simp
  | some l =>
      obtain ⟨hlen, hx⟩ := h l rfl
      have hread : ∀ r, rdN rdString l.length ((l.map wStr).join ++ r) =
          .ok (l, r) := by
        obtain ⟨bs, hbs, hrd⟩ := rdN_serCat (fun s => .ok (wStr s)) rdString l
          (fun x hxl => ⟨wStr x, rfl, rdString_wStr x (hx x hxl)⟩)
        rw [serCat_pure] at hbs
        cases hbs
        exact hrd
      simp only [serStrSlice, rdStrSlice, List.append_assoc,
        readVarIntR_writeVarInt l.length (lenOK_lt _ hlen) _,
        if_neg (lenOK_ne_sentinel _ hlen), hread]

theorem rdTxidSlice_ser (o : Option (List GoStr))
    (h : ∀ l, o = some l → lenOK l.length = true ∧
      ∀ x ∈ l, canonTxid x = true) :
    ∃ b, serTxidSlice o = .ok b ∧
      ∀ r, rdTxidSlice (b ++ r) = .ok (o, r) := by
  cases o with
  | none =>
      refine ⟨writeVarInt sentinel64, rfl, fun r => ?_⟩
      simp only [rdTxidSlice,
        readVarIntR_writeVarInt sentinel64 sentinel64_lt r]
      simp
  | some l =>
      obtain ⟨hlen, hx⟩ := h l rfl
      obtain ⟨bs, hbs, hrd⟩ := rdN_serCat (fun t => hexDec t) rdTxid l
        (fun x hxl => by
          have hc := hx x hxl
          simp only [canonTxid, Bool.and_eq_true, beq_iff_eq] at hc
          exact rdTxid_canon x hc.1 hc.2)
      refine ⟨writeVarInt l.length ++ bs, ?_, fun r => ?_⟩
      · simp [serTxidSlice, hbs]
      · simp only [rdTxidSlice, List.append_assoc,
          readVarIntR_writeVarInt l.length (lenOK_lt _ hlen) _,
          if_neg (lenOK_ne_sentinel _ hlen), hrd]

theorem rdOutpointSlice_ser (o : Option (List GoStr))
    (h : ∀ l, o = some l → lenOK l.length = true ∧
      ∀ x ∈ l, canonOutpoint x = true) :
    ∃ b, serOutpointSlice o = .ok b ∧
      ∀ r, rdOutpointSlice (b ++ r) = .ok (o, r) := by
  cases o with
  | none =>
      refine ⟨writeVarInt sentinel64, rfl, fun r => ?_⟩
      simp only [rdOutpointSlice,
        readVarIntR_writeVarInt sentinel64 sentinel64_lt r]
      simp
  | some l =>
      obtain ⟨hlen, hx⟩ := h l rfl
      obtain ⟨bs, hbs, hrd⟩ := rdN_serCat encodeOutpoint rdOutpointStr l
        (fun x hxl => rdOutpointStr_canon x (hx x hxl))
      refine ⟨writeVarInt l.length ++ bs, ?_, fun r => ?_⟩
      · simp [serOutpointSlice, hbs]
      · simp only [rdOutpointSlice, List.append_assoc,
          readVarIntR_writeVarInt l.length (lenOK_lt _ hlen) _,
          if_neg (lenOK_ne_sentinel _ hlen), hrd]

end GoSdk

namespace GoSdk

theorem exc_bind_ok {ε α β : Type} (a : α) (f : α → Except ε β) :
    (Except.ok a >>= f) = f a := rfl

theorem exc_map_ok {ε α β : Type} (a : α) (f : α → β) :
    (f <$> (Except.ok a : Except ε α)) = .ok (f a) := rfl

theorem readVarIntR_wOptU32 (n : Nat) (h : n < 2 ^ 32) :
    ∃ v, (∀ r, readVarIntR (wOptU32 n ++ r) = .ok (v, r)) ∧
      u32FromSentinel v = n := by
  by_cases hn : n > 0
  · refine ⟨n, fun r => ?_, ?_⟩
    · rw [wOptU32, if_pos hn]
      exact readVarIntR_writeVarInt n (by norm_num at h ⊢; omega) r
    · have hns : n ≠ sentinel64 := by
        intro hc; rw [hc] at h; norm_num [sentinel64] at h
      rw [u32FromSentinel, if_neg hns, Nat.mod_eq_of_lt h]
  · refine ⟨sentinel64, fun r => ?_, by simp [u32FromSentinel]; omega⟩
    rw [wOptU32, if_neg hn]
    exact readVarIntR_writeVarInt sentinel64 sentinel64_lt r

/-- The encodings of `CreateActionInput` the codec recognises. -/
def recognisedInput (i : CreateActionInput) : Prop :=
  canonOutpoint i.outpoint = true ∧
  (i.unlockingScript = [] ∨
    (canonHex i.unlockingScript = true ∧ i.unlockingScriptLength = 0)) ∧
  i.unlockingScriptLength < 2 ^ 32 ∧
  i.sequenceNumber < 2 ^ 32 ∧
  lenOK i.unlockingScript.length = true ∧
  lenOK i.inputDescription.length = true

instance (i : CreateActionInput) : Decidable (recognisedInput i) := by
  unfold recognisedInput; infer_instance

theorem rdInput_ser (i : CreateActionInput) (h : recognisedInput i) :
    ∃ b, serializeCreateActionInput i = .ok b ∧
      ∀ r, rdInput (b ++ r) = .ok (i, r) := by
  obtain ⟨op, us, usl, desc, seq⟩ := i
  simp only [recognisedInput] at h
  obtain ⟨hop, hscr, hlen32, hseq32, hslen, hdlen⟩ := h
  obtain ⟨opb, hopb, hoprd⟩ := rdOutpointStr_canon _ hop
  obtain ⟨sv, hsv, hsvEq⟩ := readVarIntR_wOptU32 seq hseq32
  by_cases hemp : us = []
  · subst hemp
    have husl64 : usl < 2 ^ 64 := by norm_num at hlen32 ⊢; omega
    refine ⟨opb ++ (writeVarInt sentinel64 ++ writeVarInt usl) ++
      wStr desc ++ wOptU32 seq, ?_, ?_⟩
    · simp [serializeCreateActionInput, hopb]
    · intro r
      simp only [rdInput, List.append_assoc, hoprd,
        readVarIntR_writeVarInt sentinel64 sentinel64_lt,
        readVarIntR_writeVarInt usl husl64, rdString_wStr desc hdlen, hsv,
        ne_eq, not_true_eq_false, if_false, ite_self]
      rw [hsvEq, Nat.mod_eq_of_lt hlen32]
  · rcases hscr with h1 | ⟨hhex, hlen0⟩
    · exact absurd h1 hemp
    · subst hlen0
      obtain ⟨sb, hsb, hsbenc, hsblen⟩ := canonHex_spec us hhex
      have hsl62 : lenOK sb.length = true := by
        simp only [lenOK, decide_eq_true_eq] at hslen ⊢; omega
      have hsl64 : sb.length < 2 ^ 64 := lenOK_lt _ hsl62
      have hnsent : sb.length ≠ sentinel64 := lenOK_ne_sentinel _ hsl62
      have hne : us.isEmpty = false := by
        cases us with
        | nil => exact absurd rfl hemp
        | cons a l => rfl
      refine ⟨opb ++ (writeVarInt sb.length ++ sb) ++
        wStr desc ++ wOptU32 seq, ?_, ?_⟩
      · simp [serializeCreateActionInput, hopb, hne, hsb]
      · intro r
        have hrb : ∀ rr, readBytesR sb.length (sb ++ rr) = .ok (sb, rr) :=
          fun rr => readBytesR_append sb rr
        simp only [rdInput, List.append_assoc, hoprd,
          readVarIntR_writeVarInt sb.length hsl64, if_pos hnsent, hrb,
          rdString_wStr desc hdlen, hsv]
        rw [hsbenc, hsvEq]

end GoSdk

namespace GoSdk

/-- Lift a predicate to an optional value (`nil` passes). -/
def optPred {α : Type} (P : α → Prop) : Option α → Prop
  | none => True
  | some x => P x

instance {α : Type} (P : α → Prop) [DecidablePred P] :
    (o : Option α) → Decidable (optPred P o)
  | none => .isTrue trivial
  | some x => decidable_of_iff (P x) Iff.rfl

theorem optPred_some {α : Type} (P : α → Prop) (o : Option α)
    (h : optPred P o) : ∀ x, o = some x → P x := by
  intro x hx
  rw [hx] at h
  exact h

theorem writeVarInt_ne_nil (n : Nat) : writeVarInt n ≠ [] := by
  unfold writeVarInt
  split_ifs <;> simp

theorem rdOptStr_wOptStrE (s : GoStr) (h : lenOK s.length = true)
    (r : Bytes) : rdOptStr (wOptStrE s ++ r) = .ok (s, r) := by
  by_cases hs : s = []
  · subst hs
    have he : wOptStrE [] = writeVarInt sentinel64 := rfl
    rw [he]
    exact rdOptStr_sentinel r
  · have hne : s.isEmpty = false := by
      cases s with
      | nil => exact absurd rfl hs
      | cons a l => rfl
    have he : wOptStrE s = wStr s := by simp [wOptStrE, hne]
    rw [he]
    exact rdOptStr_wStr s h r

/-- The encodings of `CreateActionOutput` the codec recognises. -/
def recognisedOutput (o : CreateActionOutput) : Prop :=
  canonHex o.lockingScript = true ∧
  lenOK o.lockingScript.length = true ∧
  o.satoshis < 2 ^ 64 ∧
  lenOK o.outputDescription.length = true ∧
  lenOK o.basket.length = true ∧
  lenOK o.customInstructions.length = true ∧
  optPred (fun l => lenOK l.length = true ∧
    ∀ x ∈ l, lenOK x.length = true) o.tags

instance (o : CreateActionOutput) : Decidable (recognisedOutput o) := by
  unfold recognisedOutput; infer_instance

/-- The encodings of a present `CreateActionOptions` the codec
recognises. -/
def recognisedOptionsSome (x : CreateActionOptions) : Prop :=
  (x.trustSelf = [] ∨ x.trustSelf = knownBytes) ∧
  optPred (fun l => lenOK l.length = true ∧
    ∀ t ∈ l, canonTxid t = true) x.knownTxids ∧
  optPred (fun l => lenOK l.length = true ∧
    ∀ t ∈ l, canonOutpoint t = true) x.noSendChange ∧
  optPred (fun l => lenOK l.length = true ∧
    ∀ t ∈ l, canonTxid t = true) x.sendWith

instance (x : CreateActionOptions) : Decidable (recognisedOptionsSome x) := by
  unfold recognisedOptionsSome; infer_instance

/-- The `CreateActionArgs` values the codec recognises: lengths below
`2^62`, `uint32` fields in range, canonical hex and outpoint strings,
and the `trustSelf` marker either absent or `"known"`. -/
def recognisedArgs (a : CreateActionArgs) : Prop :=
  lenOK a.description.length = true ∧
  optPred (fun x => lenOK x.length = true) a.inputBEEF ∧
  optPred (fun l => lenOK l.length = true ∧
    ∀ i ∈ l, recognisedInput i) a.inputs ∧
  optPred (fun l => lenOK l.length = true ∧
    ∀ o ∈ l, recognisedOutput o) a.outputs ∧
  a.lockTime < 2 ^ 32 ∧
  a.version < 2 ^ 32 ∧
  optPred (fun l => lenOK l.length = true ∧
    ∀ x ∈ l, lenOK x.length = true) a.labels ∧
  optPred recognisedOptionsSome a.options

instance (a : CreateActionArgs) : Decidable (recognisedArgs a) := by
  unfold recognisedArgs; infer_instance

end GoSdk

namespace GoSdk

theorem rdOutput_ser (o : CreateActionOutput) (h : recognisedOutput o) :
    ∃ b, serializeCreateActionOutput o = .ok b ∧
      ∀ r, rdOutput (b ++ r) = .ok (o, r) := by
  obtain ⟨ls, sat, odesc, basket, ci, tags⟩ := o
  simp only [recognisedOutput] at h
  obtain ⟨hhex, hlslen, hsat, hdlen, hblen, hclen, htags⟩ := h
  obtain ⟨sb, hsb, hsbenc, hsblen⟩ := canonHex_spec ls hhex
  have hsl62 : lenOK sb.length = true := by
    simp only [lenOK, decide_eq_true_eq] at hlslen ⊢; omega
  refine ⟨writeVarInt sb.length ++ sb ++ writeVarInt sat ++ wStr odesc ++
    wOptStrE basket ++ wOptStrE ci ++ serStrSlice tags, ?_, ?_⟩
  · simp [serializeCreateActionOutput, hsb]
  · intro r
    have hls : ∀ rr, rdString (writeVarInt sb.length ++ (sb ++ rr)) =
        .ok (sb, rr) := by
      intro rr
      have hh := rdString_wStr sb hsl62 rr
      rwa [wStr, List.append_assoc] at hh
    have htg : ∀ rr, rdStrSlice (serStrSlice tags ++ rr) = .ok (tags, rr) :=
      fun rr => rdStrSlice_ser tags
        (fun l hl => optPred_some _ _ htags l hl) rr
    simp only [rdOutput, List.append_assoc, hls,
      readVarIntR_writeVarInt sat hsat, rdString_wStr odesc hdlen,
      rdOptStr_wOptStrE basket hblen, rdOptStr_wOptStrE ci hclen, htg]
    rw [hsbenc]

theorem rdOptions_ser (o : Option CreateActionOptions)
    (h : optPred recognisedOptionsSome o) :
    ∃ b, serializeOptions o = .ok b ∧
      ∀ r, rdOptions (b ++ r) = .ok (o, r) := by
  cases o with
  | none =>
      refine ⟨[0], rfl, fun r => ?_⟩
      simp [rdOptions, readByteR]
  | some x =>
      obtain ⟨sap, adb, ts, kt, rto, ns, nsc, sw, ro⟩ := x
      simp only [optPred, recognisedOptionsSome] at h
      obtain ⟨hts, hkt, hnsc, hsw⟩ := h
      obtain ⟨ktb, hktb, hktrd⟩ := rdTxidSlice_ser kt
        (fun l hl => optPred_some _ _ hkt l hl)
      obtain ⟨nscb, hnscb, hnscrd⟩ := rdOutpointSlice_ser nsc
        (fun l hl => optPred_some _ _ hnsc l hl)
      obtain ⟨swb, hswb, hswrd⟩ := rdTxidSlice_ser sw
        (fun l hl => optPred_some _ _ hsw l hl)
      rcases hts with h0 | hk
      · subst h0
        refine ⟨[1] ++ wOptBool sap ++ wOptBool adb ++ [0xFF] ++ ktb ++
          wOptBool rto ++ wOptBool ns ++ nscb ++ swb ++ wOptBool ro,
          ?_, ?_⟩
        · simp [serializeOptions, hktb, hnscb, hswb, knownBytes]
        · intro r
          simp only [rdOptions, List.append_assoc, List.singleton_append,
            List.cons_append, List.nil_append, readByteR,
            rdOptBool_wOptBool, hktrd, hnscrd, hswrd, if_pos rfl]
          simp
      · subst hk
        refine ⟨[1] ++ wOptBool sap ++ wOptBool adb ++ [1] ++ ktb ++
          wOptBool rto ++ wOptBool ns ++ nscb ++ swb ++ wOptBool ro,
          ?_, ?_⟩
        · simp [serializeOptions, hktb, hnscb, hswb]
        · intro r
          simp only [rdOptions, List.append_assoc, List.singleton_append,
            List.cons_append, List.nil_append, readByteR,
            rdOptBool_wOptBool, hktrd, hnscrd, hswrd, if_pos rfl]
          simp

theorem rdInputSlice_ser (o : Option (List CreateActionInput))
    (h : optPred (fun l => lenOK l.length = true ∧
      ∀ i ∈ l, recognisedInput i) o) :
    ∃ b, serInputSlice o = .ok b ∧
      ∀ r, rdInputSlice (b ++ r) = .ok (o, r) := by
  cases o with
  | none =>
      refine ⟨writeVarInt sentinel64, rfl, fun r => ?_⟩
      simp only [rdInputSlice,
        readVarIntR_writeVarInt sentinel64 sentinel64_lt r]
      simp
  | some l =>
      simp only [optPred] at h
      obtain ⟨hlen, hx⟩ := h
      obtain ⟨bs, hbs, hrd⟩ := rdN_serCat serializeCreateActionInput
        rdInput l (fun x hxl => rdInput_ser x (hx x hxl))
      refine ⟨writeVarInt l.length ++ bs, ?_, fun r => ?_⟩
      · simp [serInputSlice, hbs]
      · simp only [rdInputSlice, List.append_assoc,
          readVarIntR_writeVarInt l.length (lenOK_lt _ hlen) _,
          if_neg (lenOK_ne_sentinel _ hlen), hrd]

theorem rdOutputSlice_ser (o : Option (List CreateActionOutput))
    (h : optPred (fun l => lenOK l.length = true ∧
      ∀ x ∈ l, recognisedOutput x) o) :
    ∃ b, serOutputSlice o = .ok b ∧
      ∀ r, rdOutputSlice (b ++ r) = .ok (o, r) := by
  cases o with
  | none =>
      refine ⟨writeVarInt sentinel64, rfl, fun r => ?_⟩
      simp only [rdOutputSlice,
        readVarIntR_writeVarInt sentinel64 sentinel64_lt r]
      simp
  | some l =>
      simp only [optPred] at h
      obtain ⟨hlen, hx⟩ := h
      obtain ⟨bs, hbs, hrd⟩ := rdN_serCat serializeCreateActionOutput
        rdOutput l (fun x hxl => rdOutput_ser x (hx x hxl))
      refine ⟨writeVarInt l.length ++ bs, ?_, fun r => ?_⟩
      · simp [serOutputSlice, hbs]
      · simp only [rdOutputSlice, List.append_assoc,
          readVarIntR_writeVarInt l.length (lenOK_lt _ hlen) _,
          if_neg (lenOK_ne_sentinel _ hlen), hrd]

theorem rdArgs_ser (a : CreateActionArgs) (h : recognisedArgs a) :
    ∃ b, SerializeCreateActionArgs a = .ok b ∧ b ≠ [] ∧
      ∀ r, rdArgs (b ++ r) = .ok (a, r) := by
  obtain ⟨desc, beef, ins, outs, lt, ver, labs, opts⟩ := a
  simp only [recognisedArgs] at h
  obtain ⟨hdesc, hbeef, hins, houts, hlt, hver, hlabs, hopts⟩ := h
  obtain ⟨ib, hib, hird⟩ := rdInputSlice_ser ins hins
  obtain ⟨ob, hob, hord⟩ := rdOutputSlice_ser outs houts
  obtain ⟨pb, hpb, hprd⟩ := rdOptions_ser opts hopts
  refine ⟨wStr desc ++ wOptBytes beef ++ ib ++ ob ++ wOptU32 lt ++
    wOptU32 ver ++ serStrSlice labs ++ pb, ?_, ?_, ?_⟩
  · simp [SerializeCreateActionArgs, hib, hob, hpb]
  · simp [wStr, writeVarInt_ne_nil]
  · intro r
    simp only [rdArgs, List.append_assoc, rdString_wStr desc hdesc,
      rdOptBytes_wOptBytes beef (fun x hx => optPred_some _ _ hbeef x hx),
      hird, hord, rdU32Sentinel_wOptU32 lt hlt,
      rdU32Sentinel_wOptU32 ver hver,
      rdStrSlice_ser labs (fun l hl => optPred_some _ _ hlabs l hl), hprd]

end GoSdk


namespace GoSdk

/-- C7 (amended): for every recognised `CreateActionArgs` value the
serializer succeeds, and deserialising its output with any trailing
bytes appended returns the original value — the round trip holds, and
unread trailing bytes are silently ignored rather than rejected. -/
theorem claim_C7_wire_roundtrip (a : CreateActionArgs) (extra : Bytes)
    (h : recognisedArgs a) :
    ∃ bs, SerializeCreateActionArgs a = .ok bs ∧
      DeserializeCreateActionArgs (bs ++ extra) = .ok a := by
  obtain ⟨bs, hbs, hne, hrd⟩ := rdArgs_ser a h
  refine ⟨bs, hbs, ?_⟩
  have hlen : ¬((bs ++ extra).length = 0) := by
    have h1 : bs.length ≠ 0 := fun hc => hne (List.length_eq_zero.mp hc)
    simp only [List.length_append]
    omega
  rw [DeserializeCreateActionArgs, if_neg hlen, hrd extra]

/-- A concrete recognised `CreateActionArgs` vector: description
`"Test action description"` and a single 1000-satoshi output with
locking script `"00"` and description `"Test output description"`. -/
def w1Args : CreateActionArgs :=
  ⟨[84, 101, 115, 116, 32, 97, 99, 116, 105, 111, 110, 32,
    100, 101, 115, 99, 114, 105, 112, 116, 105, 111, 110],
   none, none,
   some [⟨[48, 48], 1000,
     [84, 101, 115, 116, 32, 111, 117, 116, 112, 117, 116, 32,
      100, 101, 115, 99, 114, 105, 112, 116, 105, 111, 110],
     [], [], none⟩],
   0, 0, none, none⟩

set_option maxRecDepth 100000 in
/-- C7 counterexample: deserialising the serialized vector with one
trailing byte appended succeeds and returns the vector, instead of
returning an error — `DeserializeCreateActionArgs` never checks for
unread bytes. -/
theorem claim_C7_counterexample :
    (SerializeCreateActionArgs w1Args).bind
      (fun bs => DeserializeCreateActionArgs (bs ++ [0])) =
    .ok w1Args := by decide

set_option maxRecDepth 100000 in
/-- C7 witness: the amended round-trip theorem realised at the concrete
vector with two trailing bytes. -/
theorem claim_C7_witness :
    recognisedArgs w1Args ∧
    ∃ bs, SerializeCreateActionArgs w1Args = .ok bs ∧
      DeserializeCreateActionArgs (bs ++ [7, 7]) = .ok w1Args :=
  ⟨by decide, claim_C7_wire_roundtrip w1Args [7, 7] (by decide)⟩

end GoSdk
